import Mathlib

/-!
Shallow embedding of the liquid-staking matching / reconciliation engine
(`pallets/liquid-staking/src/lib.rs`).

Balances are `u128` values modelled as `Nat` with explicit bounds: checked
arithmetic returns `Option`, saturating arithmetic clamps at `2^128 - 1`.
`Rate` is the fixed-point `FixedU128` type: a `Nat` holding the value scaled
by `10^18`.  Fallible pallet code is modelled in `Except Err`; a failing
extrinsic leaves the state unchanged (the pallet calls are `#[transactional]`).

The `types` module of the pallet (`MatchingLedger`, `StakingLedger`,
`UnlockChunk`, `XcmRequest`, `UnstakeProvider`) is declared in `lib.rs`
(`pub mod types`) but its source file is not part of the source tree given
here; those definitions are modelled from the specification and carry a
`Modelled from the spec:` doc comment.  Everything else is translated from
`lib.rs` directly.
-/

namespace LiquidStaking

deriving instance DecidableEq for Except

/-- Largest `u128` value. -/
def UMAX : Nat := 2 ^ 128 - 1

/-- Fixed-point scale of `FixedU128` (`DIV = 10^18`). -/
def E18 : Nat := 10 ^ 18

abbrev Balance := Nat
abbrev EraIndex := Nat
abbrev QueryId := Nat
abbrev DerivativeIndex := Nat
abbrev AccountId := Nat

/-- Fixed-point rate (`FixedU128`), value scaled by `10^18`. -/
abbrev Rate := Nat

/-- Checked `u128` addition (`checked_add`). -/
def checkedAdd (a b : Nat) : Option Nat :=
  if a + b ≤ UMAX then some (a + b) else none

/-- Checked `u128` subtraction (`checked_sub`). -/
def checkedSub (a b : Nat) : Option Nat :=
  if b ≤ a then some (a - b) else none

/-- Saturating `u128` addition (`saturating_add`). -/
def satAdd (a b : Nat) : Nat := min (a + b) UMAX

/-- Saturating `u128` subtraction (`saturating_sub`); `Nat` subtraction already
truncates at zero. -/
def satSub (a b : Nat) : Nat := a - b

/-- Saturating `u128` multiplication (`saturating_mul`). -/
def satMul (a b : Nat) : Nat := min (a * b) UMAX

/-- Construction of a `FixedU128` from a rational (`Rate::checked_from_rational`):
`none` on a zero denominator or if the (floored) result does not fit `u128`. -/
def checkedFromRational (a b : Nat) : Option Nat :=
  if b = 0 then none
  else if a * E18 / b ≤ UMAX then some (a * E18 / b) else none

/-- Multiplication of a `FixedU128` by an integer (`checked_mul_int`): the
`u128` product of the raw parts is formed first (`none` on overflow), then
divided by the scale (floored). -/
def checkedMulInt (r : Nat) (a : Nat) : Option Nat :=
  if r * a ≤ UMAX then some (r * a / E18) else none

/-- Saturating multiplication of a `FixedU128` by an integer
(`saturating_mul_int`): like `checked_mul_int` but clamping at `UMAX` when the
raw product overflows. -/
def satMulInt (r : Nat) (a : Nat) : Nat :=
  if r * a ≤ UMAX then r * a / E18 else UMAX

/-- Reciprocal of a `FixedU128` (`Rate::reciprocal`, i.e. `one / self`):
`none` when the rate is zero. -/
def reciprocal (r : Nat) : Option Nat :=
  checkedFromRational E18 r

/-- Floor multiplication of a part-per-million `Ratio` by a balance
(`mul_floor`). -/
def mulFloor (parts : Nat) (a : Nat) : Nat :=
  parts * a / 1000000

/-! ## Association lists standing for the `StorageMap`s of the pallet -/

/-- Lookup in a storage map. -/
def lookupA {α : Type} (k : Nat) : List (Nat × α) → Option α
  | [] => none
  | (k', v) :: rest => if k = k' then some v else lookupA k rest

/-- Insert/overwrite in a storage map. -/
def insertA {α : Type} (k : Nat) (v : α) : List (Nat × α) → List (Nat × α)
  | [] => [(k, v)]
  | (k', v') :: rest =>
    if k = k' then (k, v) :: rest else (k', v') :: insertA k v rest

/-- Remove a key from a storage map. -/
def removeA {α : Type} (k : Nat) : List (Nat × α) → List (Nat × α)
  | [] => []
  | (k', v') :: rest =>
    if k = k' then removeA k rest else (k', v') :: removeA k rest

/-! ## Errors (`Error<T>` of the pallet plus `ArithmeticError` and the
token-ledger failures of the external `Assets` collaborator) -/

inductive Err : Type where
  | invalidExchangeRate
  | stakeTooSmall
  | unstakeTooSmall
  | invalidDerivativeIndex
  | invalidStakingLedger
  | capExceeded
  | invalidCap
  | invalidFactor
  | nothingToClaim
  | notBonded
  | alreadyBonded
  | noMoreChunks
  | stakingLedgerLocked
  | notWithdrawn
  | insufficientBond
  | invalidProof
  | noUnlockings
  | invalidCommissionRate
  | arithmeticOverflow
  | arithmeticUnderflow
  | insufficientBalance
deriving DecidableEq, Repr

/-! ## Matching pool

Modelled from the spec: the `MatchingLedger` type lives in the pallet's
`types` module, which is not part of the given source tree; `lib.rs` accesses
its fields `total_stake_amount` / `total_unstake_amount`, their `.total`
sub-field and the operations used below.  Spec §3 describes each accumulator
as `{total, locked}` with invariant `locked <= total`, `free() = total -
locked` failing if negative; §4.2 describes the operations. -/

/-- Modelled from the spec: one accumulator of the Matching Pool, `{total,
locked}` — `total` is the net amount recorded this cycle, `locked` the portion
committed to an in-flight remote operation. -/
structure BondingAmounts where
  total : Nat
  locked : Nat
deriving DecidableEq, Repr

/-- Modelled from the spec: `free() = total - locked`, failing if negative. -/
def BondingAmounts.free (b : BondingAmounts) : Except Err Nat :=
  if b.locked ≤ b.total then .ok (b.total - b.locked)
  else .error .arithmeticUnderflow

/-- Modelled from the spec: the Matching Pool, one accumulator for net stake
and one for net unstake. -/
structure MatchingLedger where
  total_stake_amount : BondingAmounts
  total_unstake_amount : BondingAmounts
deriving DecidableEq, Repr

/-- Modelled from the spec: `recordStake` — add to the stake accumulator's
`total`; arithmetic overflow aborts the entry point. -/
def MatchingLedger.add_stake_amount (p : MatchingLedger) (a : Nat) :
    Except Err MatchingLedger :=
  match checkedAdd p.total_stake_amount.total a with
  | none => .error .arithmeticOverflow
  | some t => .ok { p with total_stake_amount := { p.total_stake_amount with total := t } }

/-- Modelled from the spec: `recordUnstake` — add to the unstake accumulator's
`total`. -/
def MatchingLedger.add_unstake_amount (p : MatchingLedger) (a : Nat) :
    Except Err MatchingLedger :=
  match checkedAdd p.total_unstake_amount.total a with
  | none => .error .arithmeticOverflow
  | some t => .ok { p with total_unstake_amount := { p.total_unstake_amount with total := t } }

/-- Modelled from the spec: `setStakeLock` — adds to `locked`, fails with an
arithmetic-overflow kind if `locked` would exceed `total`. -/
def MatchingLedger.set_stake_amount_lock (p : MatchingLedger) (a : Nat) :
    Except Err MatchingLedger :=
  if p.total_stake_amount.locked + a ≤ p.total_stake_amount.total then
    .ok { p with total_stake_amount :=
      { p.total_stake_amount with locked := p.total_stake_amount.locked + a } }
  else .error .arithmeticOverflow

/-- Modelled from the spec: `setUnstakeLock` — adds to `locked`, fails if
`locked` would exceed `total`. -/
def MatchingLedger.set_unstake_amount_lock (p : MatchingLedger) (a : Nat) :
    Except Err MatchingLedger :=
  if p.total_unstake_amount.locked + a ≤ p.total_unstake_amount.total then
    .ok { p with total_unstake_amount :=
      { p.total_unstake_amount with locked := p.total_unstake_amount.locked + a } }
  else .error .arithmeticOverflow

/-- Modelled from the spec: `consolidateStake` — on remote confirmation
subtract the amount from both `total` and `locked` of the stake accumulator;
fails if either would go negative. -/
def MatchingLedger.consolidate_stake (p : MatchingLedger) (a : Nat) :
    Except Err MatchingLedger :=
  if a ≤ p.total_stake_amount.locked ∧ a ≤ p.total_stake_amount.total then
    .ok { p with total_stake_amount :=
      { total := p.total_stake_amount.total - a,
        locked := p.total_stake_amount.locked - a } }
  else .error .arithmeticUnderflow

/-- Modelled from the spec: `consolidateUnstake` — subtract the amount from
both `total` and `locked` of the unstake accumulator; fails if either would go
negative. -/
def MatchingLedger.consolidate_unstake (p : MatchingLedger) (a : Nat) :
    Except Err MatchingLedger :=
  if a ≤ p.total_unstake_amount.locked ∧ a ≤ p.total_unstake_amount.total then
    .ok { p with total_unstake_amount :=
      { total := p.total_unstake_amount.total - a,
        locked := p.total_unstake_amount.locked - a } }
  else .error .arithmeticUnderflow

/-- Modelled from the spec: `subStakeAmount` — used by fast-unstake settlement
to remove an amount from the stake side when it is paid out immediately
instead of being bonded; only the free (unlocked) portion can be paid out, so
the subtraction fails if it would take `total` below `locked`. -/
def MatchingLedger.sub_stake_amount (p : MatchingLedger) (a : Nat) :
    Except Err MatchingLedger :=
  if p.total_stake_amount.locked + a ≤ p.total_stake_amount.total then
    .ok { p with total_stake_amount :=
      { p.total_stake_amount with total := p.total_stake_amount.total - a } }
  else .error .arithmeticUnderflow

/-- Modelled from the spec: `match(totalCurrentlyUnbonding)` — nets the free
stake flow against the free unstake flow and returns
`(bondAmount, rebondAmount, unbondAmount)`.  The subsequent locking of the
consumed portions happens at the submission sites (`do_bond`, `do_unbond`,
`do_rebond`), matching `lib.rs`, which invokes `matching` on a copy of the
stored pool. -/
def MatchingLedger.matching (p : MatchingLedger) (unbondingAmount : Nat) :
    Except Err (Nat × Nat × Nat) :=
  match p.total_stake_amount.free with
  | .error e => .error e
  | .ok netStake =>
    match p.total_unstake_amount.free with
    | .error e => .error e
    | .ok netUnstake =>
      if netUnstake ≤ netStake then
        .ok (netStake - netUnstake, min netUnstake unbondingAmount, 0)
      else
        .ok (0, min netStake unbondingAmount,
          (netUnstake - netStake) - min netStake unbondingAmount)

/-! ## Staking ledger -/

/-- Modelled from the spec: an unlock chunk `{value, era}`. -/
structure UnlockChunk where
  value : Nat
  era : Nat
deriving DecidableEq, Repr

/-- Sum of the values of a list of unlock chunks. -/
def sumChunks : List UnlockChunk → Nat
  | [] => 0
  | c :: rest => c.value + sumChunks rest

/-- Modelled from the spec: a delegate's staking ledger —
`{owner_identity, total, active, unlocking}` with invariant
`total = active + sum(unlocking.value)` (the per-round lock state is the
separate `IsUpdated` storage map of `lib.rs`). -/
structure StakingLedger where
  stash : Nat
  total : Nat
  active : Nat
  unlocking : List UnlockChunk
deriving DecidableEq, Repr

/-- Modelled from the spec: a freshly bonded ledger (a confirmed `Bond`
creates a new DelegateLedger holding the bonded amount, fully active). -/
def StakingLedger.new (stash : Nat) (amount : Nat) : StakingLedger :=
  { stash := stash, total := amount, active := amount, unlocking := [] }

/-- Modelled from the spec: `bondExtra(amount)`:
`active += amount; total += amount`. -/
def StakingLedger.bond_extra (l : StakingLedger) (amount : Nat) : StakingLedger :=
  { l with active := l.active + amount, total := l.total + amount }

/-- Append or merge an unlock chunk: merged with the last chunk if its era
matches, else appended (chunk values merge with `saturating_add`, as in the
`unstake` extrinsic of `lib.rs`). -/
def addChunk : List UnlockChunk → Nat → Nat → List UnlockChunk
  | [], amount, era => [{ value := amount, era := era }]
  | [c], amount, era =>
    if c.era = era then [{ value := satAdd c.value amount, era := era }]
    else [c, { value := amount, era := era }]
  | c :: c2 :: rest, amount, era => c :: addChunk (c2 :: rest) amount era

/-- Append or merge an unlock chunk of a delegate ledger (plain addition, the
spec's `appends/merges by era`). -/
def mergeChunk : List UnlockChunk → Nat → Nat → List UnlockChunk
  | [], amount, era => [{ value := amount, era := era }]
  | [c], amount, era =>
    if c.era = era then [{ value := c.value + amount, era := era }]
    else [c, { value := amount, era := era }]
  | c :: c2 :: rest, amount, era => c :: mergeChunk (c2 :: rest) amount era

/-- Modelled from the spec: `unbond(amount, targetEra)` — moves the amount
from `active` into an unlock chunk at `targetEra`, merged with the last chunk
if its era matches, else appended.  The minimum-bond floor and the chunk-count
cap are enforced by the caller (`do_unbond`) before submission; the moved
amount is capped at `active`. -/
def StakingLedger.unbond (l : StakingLedger) (amount : Nat) (targetEra : Nat) :
    StakingLedger :=
  let v := min amount l.active
  if v = 0 then l
  else { l with active := l.active - v, unlocking := mergeChunk l.unlocking v targetEra }

/-- Consume unlock chunks from the tail of a reversed unlocking list: returns
the remaining (still reversed) chunks and the amount moved back to `active`,
partially consuming the last chunk touched. -/
def takeRev : List UnlockChunk → Nat → (List UnlockChunk × Nat)
  | [], _ => ([], 0)
  | c :: rest, a =>
    if a = 0 then (c :: rest, 0)
    else if c.value ≤ a then
      ((takeRev rest (a - c.value)).1, (takeRev rest (a - c.value)).2 + c.value)
    else ({ value := c.value - a, era := c.era } :: rest, a)

/-- Modelled from the spec: `rebond(amount)` — removes the amount from the
tail of `unlocking` (latest eras first) back into `active`, consuming chunks
in reverse chronological order, partially consuming the last chunk touched if
it exceeds the amount. -/
def StakingLedger.rebond (l : StakingLedger) (amount : Nat) : StakingLedger :=
  { l with
    active := l.active + (takeRev l.unlocking.reverse amount).2
    unlocking := (takeRev l.unlocking.reverse amount).1.reverse }

/-- Modelled from the spec: `consolidateUnlocked(currentEra)` — removes all
unlock chunks with `era <= currentEra` from `unlocking` and subtracts their
sum from `total`. -/
def StakingLedger.consolidate_unlocked (l : StakingLedger) (currentEra : Nat) :
    StakingLedger :=
  let kept := l.unlocking.filter fun c => decide (currentEra < c.era)
  let removed := l.unlocking.filter fun c => decide (¬ currentEra < c.era)
  { l with unlocking := kept, total := l.total - sumChunks removed }

/-! ## Remote requests and entry-point parameter types -/

/-- Reward destination of a relay-chain bond (external `RewardDestination`
type; only the alternatives used by `lib.rs` are relevant). -/
inductive RewardDestination : Type where
  | staked
  | stash
  | controller
  | account (a : Nat)
deriving DecidableEq, Repr

/-- Modelled from the spec: the sum type of in-flight remote operations
(`XcmRequest<T>` of the missing `types` module); the constructors and their
fields are exactly those constructed in `lib.rs`. -/
inductive XcmRequest : Type where
  | bond (index : Nat) (amount : Nat)
  | bondExtra (index : Nat) (amount : Nat)
  | unbond (index : Nat) (amount : Nat)
  | rebond (index : Nat) (amount : Nat)
  | withdrawUnbonded (index : Nat) (numSlashingSpans : Nat)
  | nominate (index : Nat) (targets : List Nat)
deriving DecidableEq, Repr

/-- Modelled from the spec: the unstake provider chosen by the caller of
`unstake`; `lib.rs` branches on `is_matching_pool()` and `is_loans()`. -/
inductive UnstakeProvider : Type where
  | relayChain
  | loans
  | matchingPool
deriving DecidableEq, Repr

def UnstakeProvider.is_matching_pool : UnstakeProvider → Bool
  | .matchingPool => true
  | _ => false

def UnstakeProvider.is_loans : UnstakeProvider → Bool
  | .loans => true
  | _ => false

/-! ## Configuration (the `Config` trait constants and the pluggable
distribution strategy) -/

structure Config where
  minStake : Nat
  minUnstake : Nat
  xcmFees : Nat
  bondingDuration : Nat
  minNominatorBond : Nat
  eraLength : Nat
  electionSolutionStoredOffset : Nat
  numSlashingSpans : Nat
  derivativeIndexList : List Nat
  loansInstantUnstakeFee : Nat
  matchingPoolFastUnstakeFee : Nat
  /-- `DistributionStrategy::get_bond_distributions`: per-delegate
  `(index, active, total)` triples, the target total, the per-ledger cap and
  the minimum nominator bond, returning a per-delegate split. -/
  getBondDistributions :
    List (Nat × Nat × Nat) → Nat → Nat → Nat →
      List (Nat × Nat)
  /-- `DistributionStrategy::get_unbond_distributions`. -/
  getUnbondDistributions :
    List (Nat × Nat) → Nat → Nat →
      List (Nat × Nat)
  /-- `DistributionStrategy::get_rebond_distributions`. -/
  getRebondDistributions :
    List (Nat × Nat) → Nat → List (Nat × Nat)

/-- Account of the pallet (`Self::account_id()`). -/
def palletAccount : Nat := 0

/-- Account of the loans pallet (`Self::loans_account_id()`), the pseudo
depositor used by the loans instant-unstake path. -/
def loansAccount : Nat := 1

/-- The protocol fee receiver (`T::ProtocolFeeReceiver`). -/
def feeReceiver : Nat := 2

/-- Derivative sovereign account of a delegate index
(`Self::derivative_sovereign_account_id`), an injective derivation from the
index. -/
def derivAccount (index : Nat) : Nat := 1000 + index

/-! ## Token ledger (external `Assets` collaborator, modelled at its
interface: balance maps plus total issuance for the two tracked currencies) -/

/-- Balance map of one currency. -/
abbrev Balances := List (Nat × Nat)

def balOf (who : Nat) (m : Balances) : Nat :=
  (lookupA who m).getD 0

/-- Transfer between two accounts (`T::Assets::transfer`); fails on
insufficient balance. -/
def transferBal (m : Balances) (src dst : Nat) (a : Nat) :
    Except Err Balances :=
  if a ≤ balOf src m then
    let m1 := insertA src (balOf src m - a) m
    .ok (insertA dst (balOf dst m1 + a) m1)
  else .error .insufficientBalance

/-- Burn from an account (`T::Assets::burn_from`); fails on insufficient
balance; reduces issuance. -/
def burnBal (m : Balances) (issuance : Nat) (who : Nat) (a : Nat) :
    Except Err (Balances × Nat) :=
  if a ≤ balOf who m then
    .ok (insertA who (balOf who m - a) m, issuance - a)
  else .error .insufficientBalance

/-- Mint into an account (`T::Assets::mint_into`). -/
def mintBal (m : Balances) (issuance : Nat) (who : Nat) (a : Nat) :
    Balances × Nat :=
  (insertA who (balOf who m + a) m, issuance + a)

/-! ## The engine's persistent state (the pallet's storage items) -/

structure State where
  exchangeRate : Nat
  commissionRate : Nat
  reserveFactor : Nat
  totalReserves : Nat
  matchingPool : MatchingLedger
  stakingLedgerCap : Nat
  xcmRequests : List (Nat × XcmRequest)
  fastUnstakeRequests : List (Nat × Nat)
  currentEra : Nat
  eraStartBlock : Nat
  unlockings : List (Nat × List UnlockChunk)
  stakingLedgers : List (Nat × StakingLedger)
  isUpdated : List Nat
  isMatched : Bool
  incentive : Nat
  stakingBalances : Balances
  stakingIssuance : Nat
  liquidBalances : Balances
  liquidIssuance : Nat
  nextQueryId : Nat
deriving DecidableEq, Repr

/-! ## Read accessors (`lib.rs` helper functions) -/

/-- Target era for a user unstake (`Self::target_era()`):
`current_era + BondingDuration + 1`. -/
def targetEra (cfg : Config) (s : State) : Nat :=
  s.currentEra + cfg.bondingDuration + 1

/-- Sum of `ledger.total` over all staking ledgers (`get_total_bonded`). -/
def getTotalBonded (s : State) : Nat :=
  s.stakingLedgers.foldl (fun acc p => satAdd acc p.2.total) 0

/-- Sum of `ledger.active` over all staking ledgers
(`get_total_active_bonded`). -/
def getTotalActiveBonded (s : State) : Nat :=
  s.stakingLedgers.foldl (fun acc p => satAdd acc p.2.active) 0

/-- Sum of `ledger.total - ledger.active` over all staking ledgers
(`get_total_unbonding`). -/
def getTotalUnbonding (s : State) : Nat :=
  s.stakingLedgers.foldl (fun acc p => satAdd acc (satSub p.2.total p.2.active)) 0

/-- Global bonding cap (`get_market_cap`):
`staking_ledger_cap * |DerivativeIndexList|` (saturating). -/
def getMarketCap (cfg : Config) (s : State) : Nat :=
  satMul s.stakingLedgerCap cfg.derivativeIndexList.length

/-- Bonded total of one delegate (`total_bonded_of`); zero when the ledger
does not exist. -/
def totalBondedOf (s : State) (index : Nat) : Nat :=
  match lookupA index s.stakingLedgers with
  | some l => l.total
  | none => 0

/-- Active bonded of one delegate (`active_bonded_of`). -/
def activeBondedOf (s : State) (index : Nat) : Nat :=
  match lookupA index s.stakingLedgers with
  | some l => l.active
  | none => 0

/-- Unbonding amount of one delegate (`unbonding_of`). -/
def unbondingOf (s : State) (index : Nat) : Nat :=
  match lookupA index s.stakingLedgers with
  | some l => satSub l.total l.active
  | none => 0

/-- Matured (withdrawable) amount of one delegate (`unbonded_of`): the sum of
unlock chunks whose era has been reached. -/
def unbondedOf (s : State) (index : Nat) : Nat :=
  match lookupA index s.stakingLedgers with
  | some l =>
    l.unlocking.foldl
      (fun acc c => if c.era ≤ s.currentEra then satAdd acc c.value else acc) 0
  | none => 0

/-- Unencumbered base asset held by the pallet (`get_total_unclaimed`):
reducible balance minus reserves minus the matching pool's stake total. -/
def getTotalUnclaimed (s : State) : Nat :=
  satSub (satSub (balOf palletAccount s.stakingBalances) s.totalReserves)
    s.matchingPool.total_stake_amount.total

/-- Conversion base → derivative (`staking_to_liquid`): multiply by the
reciprocal of the exchange rate. -/
def stakingToLiquid (s : State) (amount : Nat) : Option Nat :=
  (reciprocal s.exchangeRate).bind fun r => checkedMulInt r amount

/-- Conversion derivative → base (`liquid_to_staking`): multiply by the
exchange rate. -/
def liquidToStaking (s : State) (liquidAmount : Nat) : Option Nat :=
  checkedMulInt s.exchangeRate liquidAmount

/-! ## Cap checks -/

/-- Maximum number of unlocking chunks (`MAX_UNLOCKING_CHUNKS`). -/
def MAX_UNLOCKING_CHUNKS : Nat := 32

/-- Largest `u32` value (`EraIndex` is `u32`). -/
def U32MAX : Nat := 2 ^ 32 - 1

/-- Saturating `u32` addition for era indices. -/
def eraSatAdd (a b : Nat) : Nat := min (a + b) U32MAX

/-- Global market-cap check (`ensure_market_cap`): rejects with `CapExceeded`
when the total bonded plus the new amount would exceed the market cap. -/
def ensureMarketCap (cfg : Config) (s : State) (amount : Nat) : Except Err Unit :=
  if satAdd (getTotalBonded s) amount ≤ getMarketCap cfg s then .ok ()
  else .error .capExceeded

/-- Per-delegate cap check (`ensure_staking_ledger_cap`). -/
def ensureStakingLedgerCap (s : State) (index : Nat) (amount : Nat) :
    Except Err Unit :=
  if satAdd (totalBondedOf s index) amount ≤ s.stakingLedgerCap then .ok ()
  else .error .capExceeded

/-! ## Remote-operation submission (`do_bond`, `do_bond_extra`, `do_unbond`,
`do_rebond`, `do_withdraw_unbonded`, `do_nominate`).  The XCM transport is the
external collaborator: submission yields the fresh correlation id
`s.nextQueryId` and records the pending `XcmRequest`. -/

def doBondExtra (cfg : Config) (s : State) (index : Nat)
    (amount : Nat) : Except Err State :=
  if amount = 0 then .ok s
  else if index ∈ cfg.derivativeIndexList then
    if (lookupA index s.stakingLedgers).isSome then
      match ensureStakingLedgerCap s index amount with
      | .error e => .error e
      | .ok _ =>
        match s.matchingPool.set_stake_amount_lock amount with
        | .error e => .error e
        | .ok pool =>
          .ok { s with
                matchingPool := pool
                xcmRequests := insertA s.nextQueryId (.bondExtra index amount) s.xcmRequests
                nextQueryId := s.nextQueryId + 1 }
    else .error .notBonded
  else .error .invalidDerivativeIndex

def doBond (cfg : Config) (s : State) (index : Nat) (amount : Nat)
    (_payee : RewardDestination) : Except Err State :=
  if amount = 0 then .ok s
  else if (lookupA index s.stakingLedgers).isSome then doBondExtra cfg s index amount
  else if index ∈ cfg.derivativeIndexList then
    if cfg.minNominatorBond ≤ amount then
      match ensureStakingLedgerCap s index amount with
      | .error e => .error e
      | .ok _ =>
        match s.matchingPool.set_stake_amount_lock amount with
        | .error e => .error e
        | .ok pool =>
          .ok { s with
                matchingPool := pool
                xcmRequests := insertA s.nextQueryId (.bond index amount) s.xcmRequests
                nextQueryId := s.nextQueryId + 1 }
    else .error .insufficientBond
  else .error .invalidDerivativeIndex

def doUnbond (cfg : Config) (s : State) (index : Nat)
    (amount : Nat) : Except Err State :=
  if amount = 0 then .ok s
  else if index ∈ cfg.derivativeIndexList then
    match lookupA index s.stakingLedgers with
    | none => .error .notBonded
    | some ledger =>
      if ledger.unlocking.length < MAX_UNLOCKING_CHUNKS then
        if cfg.minNominatorBond ≤ satSub ledger.active amount then
          match s.matchingPool.set_unstake_amount_lock amount with
          | .error e => .error e
          | .ok pool =>
            .ok { s with
                  matchingPool := pool
                  xcmRequests := insertA s.nextQueryId (.unbond index amount) s.xcmRequests
                  nextQueryId := s.nextQueryId + 1 }
        else .error .insufficientBond
      else .error .noMoreChunks
  else .error .invalidDerivativeIndex

def doRebond (cfg : Config) (s : State) (index : Nat)
    (amount : Nat) : Except Err State :=
  if amount = 0 then .ok s
  else if index ∈ cfg.derivativeIndexList then
    if (lookupA index s.stakingLedgers).isSome then
      match s.matchingPool.set_stake_amount_lock amount with
      | .error e => .error e
      | .ok pool =>
        .ok { s with
              matchingPool := pool
              xcmRequests := insertA s.nextQueryId (.rebond index amount) s.xcmRequests
              nextQueryId := s.nextQueryId + 1 }
    else .error .notBonded
  else .error .invalidDerivativeIndex

def doWithdrawUnbonded (cfg : Config) (s : State) (index : Nat)
    (numSlashingSpans : Nat) : Except Err State :=
  if unbondedOf s index = 0 then .ok s
  else if index ∈ cfg.derivativeIndexList then
    if (lookupA index s.stakingLedgers).isSome then
      .ok { s with
            xcmRequests :=
              insertA s.nextQueryId (.withdrawUnbonded index numSlashingSpans) s.xcmRequests,
            nextQueryId := s.nextQueryId + 1 }
    else .error .notBonded
  else .error .invalidDerivativeIndex

def doNominate (cfg : Config) (s : State) (index : Nat)
    (targets : List Nat) : Except Err State :=
  if index ∈ cfg.derivativeIndexList then
    if (lookupA index s.stakingLedgers).isSome then
      .ok { s with
            xcmRequests := insertA s.nextQueryId (.nominate index targets) s.xcmRequests,
            nextQueryId := s.nextQueryId + 1 }
    else .error .notBonded
  else .error .invalidDerivativeIndex

/-! ## Multi-account distribution (`do_multi_bond` etc.): the distribution
strategy is the pluggable policy of the configuration. -/

def doBondList (cfg : Config) (payee : RewardDestination) :
    List (Nat × Nat) → State → Except Err State
  | [], s => .ok s
  | (i, a) :: rest, s =>
    match doBond cfg s i a payee with
    | .error e => .error e
    | .ok s' => doBondList cfg payee rest s'

def doUnbondList (cfg : Config) :
    List (Nat × Nat) → State → Except Err State
  | [], s => .ok s
  | (i, a) :: rest, s =>
    match doUnbond cfg s i a with
    | .error e => .error e
    | .ok s' => doUnbondList cfg rest s'

def doRebondList (cfg : Config) :
    List (Nat × Nat) → State → Except Err State
  | [], s => .ok s
  | (i, a) :: rest, s =>
    match doRebond cfg s i a with
    | .error e => .error e
    | .ok s' => doRebondList cfg rest s'

def doWithdrawList (cfg : Config) (numSlashingSpans : Nat) :
    List Nat → State → Except Err State
  | [], s => .ok s
  | i :: rest, s =>
    match doWithdrawUnbonded cfg s i numSlashingSpans with
    | .error e => .error e
    | .ok s' => doWithdrawList cfg numSlashingSpans rest s'

def doMultiBond (cfg : Config) (s : State) (totalAmount : Nat)
    (payee : RewardDestination) : Except Err State :=
  if totalAmount = 0 then .ok s
  else
    let amounts := cfg.derivativeIndexList.map fun i =>
      (i, activeBondedOf s i, totalBondedOf s i)
    doBondList cfg payee
      (cfg.getBondDistributions amounts totalAmount s.stakingLedgerCap cfg.minNominatorBond) s

def doMultiUnbond (cfg : Config) (s : State) (totalAmount : Nat) :
    Except Err State :=
  if totalAmount = 0 then .ok s
  else
    let amounts := cfg.derivativeIndexList.map fun i => (i, activeBondedOf s i)
    doUnbondList cfg (cfg.getUnbondDistributions amounts totalAmount cfg.minNominatorBond) s

def doMultiRebond (cfg : Config) (s : State) (totalAmount : Nat) :
    Except Err State :=
  if totalAmount = 0 then .ok s
  else
    let amounts := cfg.derivativeIndexList.map fun i => (i, unbondingOf s i)
    doRebondList cfg (cfg.getRebondDistributions amounts totalAmount) s

def doMultiWithdrawUnbonded (cfg : Config) (s : State) (numSlashingSpans : Nat) :
    Except Err State :=
  doWithdrawList cfg numSlashingSpans (s.stakingLedgers.map (·.1)) s

/-! ## Confirmation processing (`do_notification_received`) -/

/-- Dispatch of a confirmed (successful) remote operation on its request
variant. -/
def applyXcmRequest (cfg : Config) (s : State) : XcmRequest → Except Err State
  | .bond index amount =>
    if (lookupA index s.stakingLedgers).isSome then .error .alreadyBonded
    else
      match s.matchingPool.consolidate_stake amount with
      | .error e => .error e
      | .ok pool =>
        match burnBal s.stakingBalances s.stakingIssuance palletAccount amount with
        | .error e => .error e
        | .ok b =>
          .ok { s with
                stakingLedgers :=
                  insertA index (StakingLedger.new (derivAccount index) amount) s.stakingLedgers
                matchingPool := pool
                stakingBalances := b.1
                stakingIssuance := b.2 }
  | .bondExtra index amount =>
    match lookupA index s.stakingLedgers with
    | none => .error .notBonded
    | some l =>
      match s.matchingPool.consolidate_stake amount with
      | .error e => .error e
      | .ok pool =>
        match burnBal s.stakingBalances s.stakingIssuance palletAccount amount with
        | .error e => .error e
        | .ok b =>
          .ok { s with
                stakingLedgers := insertA index (l.bond_extra amount) s.stakingLedgers
                isUpdated := index :: s.isUpdated
                matchingPool := pool
                stakingBalances := b.1
                stakingIssuance := b.2 }
  | .unbond index amount =>
    match lookupA index s.stakingLedgers with
    | none => .error .notBonded
    | some l =>
      match s.matchingPool.consolidate_unstake amount with
      | .error e => .error e
      | .ok pool =>
        .ok { s with
              stakingLedgers :=
                insertA index (l.unbond amount (s.currentEra + cfg.bondingDuration))
                  s.stakingLedgers,
              isUpdated := index :: s.isUpdated, matchingPool := pool }
  | .rebond index amount =>
    match lookupA index s.stakingLedgers with
    | none => .error .notBonded
    | some l =>
      match s.matchingPool.consolidate_stake amount with
      | .error e => .error e
      | .ok pool =>
        .ok { s with
              stakingLedgers := insertA index (l.rebond amount) s.stakingLedgers
              isUpdated := index :: s.isUpdated
              matchingPool := pool }
  | .withdrawUnbonded index _ =>
    match lookupA index s.stakingLedgers with
    | none => .error .notBonded
    | some l =>
      let l' := l.consolidate_unlocked s.currentEra
      .ok { s with
            stakingLedgers := insertA index l' s.stakingLedgers
            isUpdated := index :: s.isUpdated
            stakingBalances :=
              (mintBal s.stakingBalances s.stakingIssuance palletAccount
                (satSub l.total l'.total)).1
            stakingIssuance :=
              (mintBal s.stakingBalances s.stakingIssuance palletAccount
                (satSub l.total l'.total)).2 }
  | .nominate _ _ => .ok s

/-- Confirmation handling (`do_notification_received`): a remote failure
(`res` is `some`) leaves everything untouched — the pending entry stays in
`XcmRequests` ("flying & failed xcm requests") and no consolidation happens;
a success applies the request's effect and removes the entry. -/
def doNotificationReceived (cfg : Config) (s : State) (queryId : Nat)
    (req : XcmRequest) (res : Option Nat) : Except Err State :=
  if res.isSome then .ok s
  else
    match applyXcmRequest cfg s req with
    | .error e => .error e
    | .ok s' => .ok { s' with xcmRequests := removeA queryId s'.xcmRequests }

/-! ## Exchange rate recomputation (`do_update_exchange_rate`) -/

def doUpdateExchangeRate (s : State) : Except Err State :=
  if s.liquidIssuance = 0 then .ok s
  else
    match (checkedAdd (getTotalActiveBonded s) s.matchingPool.total_stake_amount.total).bind
        (fun r => checkedSub r s.matchingPool.total_unstake_amount.total) with
    | none => .error .arithmeticOverflow
    | some numerator =>
      match checkedFromRational numerator s.liquidIssuance with
      | none => .error .invalidExchangeRate
      | some newExchangeRate =>
        if s.exchangeRate < newExchangeRate then
          .ok { s with exchangeRate := newExchangeRate }
        else .ok s

/-! ## Era state machine (`do_advance_era`, `offset`) -/

def doAdvanceEra (_cfg : Config) (s : State) (offset : Nat)
    (relayHeight : Nat) : Except Err State :=
  if offset = 0 then .ok s
  else
    let s1 := { s with
                eraStartBlock := relayHeight
                currentEra := eraSatAdd s.currentEra offset }
    let s2 :=
      match doUpdateExchangeRate s1 with
      | .ok s' => s'
      | .error _ => s1
    .ok { s2 with isMatched := false }

/-- Era offset from the relay-chain oracle height (`Self::offset`): zero when
the height is stale, the era length is zero, or the quotient does not fit a
`u32`. -/
def offsetOf (cfg : Config) (s : State) (relayHeight : Nat) : Nat :=
  match checkedSub relayHeight s.eraStartBlock with
  | none => 0
  | some d =>
    if cfg.eraLength = 0 then 0
    else if d / cfg.eraLength ≤ U32MAX then d / cfg.eraLength else 0

/-! ## Matching round (`do_matching`) -/

def doMatching (cfg : Config) (s : State) : Except Err State :=
  match s.matchingPool.matching (getTotalUnbonding s) with
  | .error e => .error e
  | .ok t =>
    match doMultiBond cfg { s with isMatched := true } t.1 .staked with
    | .error e => .error e
    | .ok s2 =>
      match doMultiRebond cfg s2 t.2.1 with
      | .error e => .error e
      | .ok s3 =>
        match doMultiUnbond cfg s3 t.2.2 with
        | .error e => .error e
        | .ok s4 => doMultiWithdrawUnbonded cfg s4 cfg.numSlashingSpans

/-! ## Loans instant unstake (`do_loans_instant_unstake`); the collateralized
lending collaborator is external — its collateral mint / borrow bookkeeping is
untracked and only the fee computation and the payout transfer of the borrowed
base asset are modelled -/

def doLoansInstantUnstake (cfg : Config) (s : State) (who : Nat)
    (amount : Nat) : Except Err State :=
  match checkedMulInt cfg.loansInstantUnstakeFee amount with
  | none => .error .arithmeticOverflow
  | some fee =>
    match checkedSub amount fee with
    | none => .error .arithmeticUnderflow
    | some borrowAmount =>
      match transferBal s.stakingBalances palletAccount who borrowAmount with
      | .error e => .error e
      | .ok m => .ok { s with stakingBalances := m }

/-! ## Commission inflation (`get_inflate_liquid_amount`) -/

def getInflateLiquidAmount (s : State) (rewards : Nat) : Except Err Nat :=
  if s.liquidIssuance = 0 ∨ s.commissionRate = 0 ∨ rewards = 0 then .ok 0
  else
    match (checkedAdd (getTotalActiveBonded s) s.matchingPool.total_stake_amount.total).bind
        (fun r => checkedSub r s.matchingPool.total_unstake_amount.total) with
    | none => .error .arithmeticOverflow
    | some totalStakeAmount =>
      let commissionStakingAmount := satMulInt s.commissionRate rewards
      let inflateRate :=
        (checkedFromRational commissionStakingAmount
          (satSub (satAdd totalStakeAmount rewards) commissionStakingAmount)).getD 0
      .ok (satMulInt inflateRate s.liquidIssuance)

/-! ## Claim payout (`do_claim_for`) -/

def doClaimFor (s : State) (who : Nat) (amount : Nat) :
    Except Err State :=
  if who = loansAccount then
    -- repay / redeem against the excluded lending collaborator; the burn of
    -- the collateral currency is untracked
    .ok s
  else
    match transferBal s.stakingBalances palletAccount who amount with
    | .error e => .error e
    | .ok m => .ok { s with stakingBalances := m }

/-! ## Fast unstake settlement (`do_fast_match_unstake`) -/

def doFastMatchUnstake (cfg : Config) (s : State) (unstaker : Nat) :
    Except Err State :=
  match lookupA unstaker s.fastUnstakeRequests with
  | none => .ok s
  | some stored =>
    let currentLiquidAmount := balOf unstaker s.liquidBalances
    let requestLiquidAmount := min stored currentLiquidAmount
    match s.matchingPool.total_stake_amount.free with
    | .error e => .error e
    | .ok freeStake =>
      match stakingToLiquid s freeStake with
      | none => .error .invalidExchangeRate
      | some availableLiquidAmount =>
        let matchedLiquidAmount := min requestLiquidAmount availableLiquidAmount
        let settled : Except Err State :=
          if matchedLiquidAmount = 0 then .ok s
          else
            let matchedFee := satMulInt cfg.matchingPoolFastUnstakeFee matchedLiquidAmount
            let liquidToBurn := satSub matchedLiquidAmount matchedFee
            match burnBal s.liquidBalances s.liquidIssuance unstaker liquidToBurn with
            | .error e => .error e
            | .ok b1 =>
              match transferBal b1.1 unstaker feeReceiver matchedFee with
              | .error e => .error e
              | .ok m2 =>
                match liquidToStaking s liquidToBurn with
                | none => .error .invalidExchangeRate
                | some stakingToReceive =>
                  match s.matchingPool.sub_stake_amount stakingToReceive with
                  | .error e => .error e
                  | .ok pool =>
                    match transferBal s.stakingBalances palletAccount unstaker
                        stakingToReceive with
                    | .error e => .error e
                    | .ok ms =>
                      .ok { s with
                            liquidBalances := m2
                            liquidIssuance := b1.2
                            matchingPool := pool
                            stakingBalances := ms }
        match settled with
        | .error e => .error e
        | .ok s1 =>
          let unmatchedAmount := satSub requestLiquidAmount matchedLiquidAmount
          .ok { s1 with
                fastUnstakeRequests :=
                  if unmatchedAmount = 0 then removeA unstaker s1.fastUnstakeRequests
                  else insertA unstaker unmatchedAmount s1.fastUnstakeRequests }

def fastMatchUnstakeList (cfg : Config) :
    List Nat → State → Except Err State
  | [], s => .ok s
  | who :: rest, s =>
    match doFastMatchUnstake cfg s who with
    | .error e => .error e
    | .ok s' => fastMatchUnstakeList cfg rest s'

/-! ## The extrinsic entry points -/

/-- The `stake` extrinsic. -/
def stakeCall (cfg : Config) (s : State) (who : Nat) (amount : Nat) :
    Except Err State :=
  if cfg.minStake ≤ amount then
    let reserves := mulFloor s.reserveFactor amount
    match checkedSub amount cfg.xcmFees with
    | none => .error .arithmeticUnderflow
    | some afterFees =>
      match transferBal s.stakingBalances who palletAccount afterFees with
      | .error e => .error e
      | .ok m1 =>
        -- T::XCM::add_xcm_fees moves the xcm fee of the (untracked) fee pot
        match checkedSub afterFees reserves with
        | none => .error .arithmeticUnderflow
        | some netAmount =>
          match stakingToLiquid s netAmount with
          | none => .error .invalidExchangeRate
          | some liquidAmount =>
            match ensureMarketCap cfg s netAmount with
            | .error e => .error e
            | .ok _ =>
              let s1 := { s with
                          stakingBalances := m1
                          liquidBalances :=
                            (mintBal s.liquidBalances s.liquidIssuance who liquidAmount).1
                          liquidIssuance :=
                            (mintBal s.liquidBalances s.liquidIssuance who liquidAmount).2 }
              match s1.matchingPool.add_stake_amount netAmount with
              | .error e => .error e
              | .ok pool =>
                match checkedAdd s1.totalReserves reserves with
                | none => .error .arithmeticOverflow
                | some tr => .ok { s1 with matchingPool := pool, totalReserves := tr }
  else .error .stakeTooSmall

/-- The `unstake` extrinsic. -/
def unstakeCall (cfg : Config) (s : State) (who : Nat)
    (liquidAmount : Nat) (provider : UnstakeProvider) : Except Err State :=
  if cfg.minUnstake ≤ liquidAmount then
    if provider.is_matching_pool then
      let balance := balOf who s.liquidBalances
      let old := (lookupA who s.fastUnstakeRequests).getD 0
      .ok { s with
            fastUnstakeRequests :=
              insertA who (min (satAdd old liquidAmount) balance) s.fastUnstakeRequests }
    else
      match liquidToStaking s liquidAmount with
      | none => .error .invalidExchangeRate
      | some amount =>
        let unlockingsKey := if provider.is_loans then loansAccount else who
        let chunks := (lookupA unlockingsKey s.unlockings).getD []
        let chunks' := addChunk chunks amount (targetEra cfg s)
        if chunks'.length ≤ MAX_UNLOCKING_CHUNKS then
          let s1 := { s with unlockings := insertA unlockingsKey chunks' s.unlockings }
          match burnBal s1.liquidBalances s1.liquidIssuance who liquidAmount with
          | .error e => .error e
          | .ok b =>
            let s2 := { s1 with liquidBalances := b.1, liquidIssuance := b.2 }
            match (if provider.is_loans then doLoansInstantUnstake cfg s2 who amount
                   else .ok s2) with
            | .error e => .error e
            | .ok s3 =>
              match s3.matchingPool.add_unstake_amount amount with
              | .error e => .error e
              | .ok pool => .ok { s3 with matchingPool := pool }
        else .error .noMoreChunks
  else .error .unstakeTooSmall

/-- The `claim_for` extrinsic. -/
def claimForCall (s : State) (who : Nat) : Except Err State :=
  match lookupA who s.unlockings with
  | none => .error .noUnlockings
  | some chunks =>
    let kept := chunks.filter fun c => decide (s.currentEra < c.era)
    let amount := sumChunks (chunks.filter fun c => decide (¬ s.currentEra < c.era))
    let totalUnclaimed := getTotalUnclaimed s
    if amount = 0 then .error .nothingToClaim
    else if totalUnclaimed < amount then .error .notWithdrawn
    else
      match doClaimFor s who amount with
      | .error e => .error e
      | .ok s1 =>
        .ok { s1 with
              unlockings :=
                if kept.isEmpty then removeA who s1.unlockings
                else insertA who kept s1.unlockings }

/-- The `notification_received` extrinsic for an `ExecutionResult` response:
missing correlation ids are silently ignored. -/
def notificationReceivedCall (cfg : Config) (s : State) (queryId : Nat)
    (res : Option Nat) : Except Err State :=
  match lookupA queryId s.xcmRequests with
  | none => .ok s
  | some req => doNotificationReceived cfg s queryId req res

/-- The `force_set_staking_ledger` extrinsic. -/
def forceSetStakingLedgerCall (s : State) (index : Nat)
    (ledger : StakingLedger) : Except Err State :=
  match lookupA index s.stakingLedgers with
  | none => .error .notBonded
  | some _ =>
    if index ∉ s.isUpdated ∧ s.xcmRequests = [] then
      .ok { s with
            stakingLedgers := insertA index ledger s.stakingLedgers
            isUpdated := index :: s.isUpdated }
    else .error .stakingLedgerLocked

/-- The `set_staking_ledger` extrinsic (proof-based); the merkle verification
against the relay-chain storage root is the external proof collaborator,
modelled by the boolean outcome `proofValid`; the native-currency incentive
transfer to the caller is untracked. -/
def setStakingLedgerCall (s : State) (index : Nat)
    (ledger : StakingLedger) (proofValid : Bool) : Except Err State :=
  match lookupA index s.stakingLedgers with
  | none => .error .notBonded
  | some old =>
    if index ∉ s.isUpdated then
      -- a non-ideal ledger only emits the `NonIdealStakingLedger` event
      if proofValid then
        let rewards := satSub ledger.total old.total
        match getInflateLiquidAmount s rewards with
        | .error e => .error e
        | .ok inflate =>
          .ok { s with
                liquidBalances :=
                  if inflate = 0 then s.liquidBalances
                  else (mintBal s.liquidBalances s.liquidIssuance feeReceiver inflate).1
                liquidIssuance :=
                  if inflate = 0 then s.liquidIssuance
                  else (mintBal s.liquidBalances s.liquidIssuance feeReceiver inflate).2
                stakingLedgers := insertA index ledger s.stakingLedgers
                isUpdated := index :: s.isUpdated }
      else .error .invalidProof
    else .error .stakingLedgerLocked

/-- The `set_current_era` extrinsic (proof-based). -/
def setCurrentEraCall (cfg : Config) (s : State) (era : Nat)
    (proofValid : Bool) (relayHeight : Nat) : Except Err State :=
  let offset := satSub era s.currentEra
  if proofValid then
    -- the native-currency incentive payout to the caller is untracked
    doAdvanceEra cfg s offset relayHeight
  else .error .invalidProof

/-- The `cancel_unstake` extrinsic. -/
def cancelUnstakeCall (s : State) (who : Nat) (amount : Nat) :
    Except Err State :=
  let balance := balOf who s.liquidBalances
  let old := (lookupA who s.fastUnstakeRequests).getD 0
  .ok { s with
        fastUnstakeRequests :=
          insertA who (satSub (min old balance) amount) s.fastUnstakeRequests }

/-- The `reduce_reserves` extrinsic. -/
def reduceReservesCall (s : State) (receiver : Nat) (reduceAmount : Nat) :
    Except Err State :=
  match checkedSub s.totalReserves reduceAmount with
  | none => .error .arithmeticUnderflow
  | some tr =>
    match transferBal s.stakingBalances palletAccount receiver reduceAmount with
    | .error e => .error e
    | .ok m => .ok { s with totalReserves := tr, stakingBalances := m }

/-- The `on_initialize` hook: a pending matching round, then a possible era
advance, all rolled back together on failure. -/
def onInitializeHook (cfg : Config) (s : State) (relayHeight : Nat) :
    Except Err State :=
  let afterMatching : Except Err State :=
    if ¬ s.isMatched ∧ cfg.electionSolutionStoredOffset + s.eraStartBlock ≤ relayHeight
    then doMatching cfg s
    else .ok s
  match afterMatching with
  | .error e => .error e
  | .ok s1 =>
    let offset := offsetOf cfg s1 relayHeight
    if offset = 0 then .ok s1
    else doAdvanceEra cfg s1 offset relayHeight

/-! ## The engine's operations and the step function -/

/-- One invocation of a public mutation entry point of the engine, together
with the external-oracle inputs it consumes (relay-chain height, proof
verification outcome). -/
inductive Op : Type where
  | stake (who : Nat) (amount : Nat)
  | unstake (who : Nat) (liquidAmount : Nat) (provider : UnstakeProvider)
  | updateReserveFactor (rf : Nat)
  | updateStakingLedgerCap (cap : Nat)
  | bond (index : Nat) (amount : Nat) (payee : RewardDestination)
  | bondExtra (index : Nat) (amount : Nat)
  | unbond (index : Nat) (amount : Nat)
  | rebond (index : Nat) (amount : Nat)
  | withdrawUnbonded (index : Nat) (numSlashingSpans : Nat)
  | nominate (index : Nat) (targets : List Nat)
  | notificationReceived (queryId : Nat) (res : Option Nat)
  | claimFor (who : Nat)
  | forceSetEraStartBlock (blockNumber : Nat)
  | forceSetCurrentEra (era : Nat)
  | forceAdvanceEra (offset : Nat) (relayHeight : Nat)
  | forceMatching
  | forceSetStakingLedger (index : Nat) (ledger : StakingLedger)
  | setCurrentEra (era : Nat) (proofValid : Bool) (relayHeight : Nat)
  | setStakingLedger (index : Nat) (ledger : StakingLedger) (proofValid : Bool)
  | reduceReserves (receiver : Nat) (amount : Nat)
  | cancelUnstake (who : Nat) (amount : Nat)
  | updateCommissionRate (cr : Nat)
  | fastMatchUnstake (unstakerList : List Nat)
  | updateIncentive (amount : Nat)
  | onInitialize (relayHeight : Nat)
deriving DecidableEq, Repr

/-- One transactional entry point: either all of its state mutations commit,
or the error is returned and nothing commits. -/
def step (cfg : Config) (s : State) : Op → Except Err State
  | .stake who amount => stakeCall cfg s who amount
  | .unstake who liquidAmount provider => unstakeCall cfg s who liquidAmount provider
  | .updateReserveFactor rf =>
    if 0 < rf ∧ rf < 1000000 then .ok { s with reserveFactor := rf }
    else .error .invalidFactor
  | .updateStakingLedgerCap cap =>
    if cap ≠ 0 then .ok { s with stakingLedgerCap := cap } else .error .invalidCap
  | .bond index amount payee => doBond cfg s index amount payee
  | .bondExtra index amount => doBondExtra cfg s index amount
  | .unbond index amount => doUnbond cfg s index amount
  | .rebond index amount => doRebond cfg s index amount
  | .withdrawUnbonded index numSlashingSpans =>
    doWithdrawUnbonded cfg s index numSlashingSpans
  | .nominate index targets => doNominate cfg s index targets
  | .notificationReceived queryId res => notificationReceivedCall cfg s queryId res
  | .claimFor who => claimForCall s who
  | .forceSetEraStartBlock blockNumber => .ok { s with eraStartBlock := blockNumber }
  | .forceSetCurrentEra era => .ok { s with isMatched := false, currentEra := era }
  | .forceAdvanceEra offset relayHeight => doAdvanceEra cfg s offset relayHeight
  | .forceMatching => doMatching cfg s
  | .forceSetStakingLedger index ledger => forceSetStakingLedgerCall s index ledger
  | .setCurrentEra era proofValid relayHeight =>
    setCurrentEraCall cfg s era proofValid relayHeight
  | .setStakingLedger index ledger proofValid =>
    setStakingLedgerCall s index ledger proofValid
  | .reduceReserves receiver amount => reduceReservesCall s receiver amount
  | .cancelUnstake who amount => cancelUnstakeCall s who amount
  | .updateCommissionRate cr =>
    if 0 < cr ∧ cr < E18 then .ok { s with commissionRate := cr }
    else .error .invalidCommissionRate
  | .fastMatchUnstake unstakerList => fastMatchUnstakeList cfg unstakerList s
  | .updateIncentive amount => .ok { s with incentive := amount }
  | .onInitialize relayHeight => onInitializeHook cfg s relayHeight

/-- Transactional execution: a failed entry point rolls back, leaving the
state unchanged. -/
def exec (cfg : Config) (s : State) (op : Op) : State :=
  match step cfg s op with
  | .ok s' => s'
  | .error _ => s

/-- Execution of a sequence of entry points. -/
def run (cfg : Config) (s : State) (ops : List Op) : State :=
  ops.foldl (exec cfg) s

/-- Genesis state: the genesis build writes the configured exchange rate and
reserve factor; everything else is empty. -/
def genesis (exchangeRate : Nat) (reserveFactor : Nat) : State :=
  { exchangeRate := exchangeRate
    commissionRate := 0
    reserveFactor := reserveFactor
    totalReserves := 0
    matchingPool := ⟨⟨0, 0⟩, ⟨0, 0⟩⟩
    stakingLedgerCap := 0
    xcmRequests := []
    fastUnstakeRequests := []
    currentEra := 0
    eraStartBlock := 0
    unlockings := []
    stakingLedgers := []
    isUpdated := []
    isMatched := false
    incentive := 0
    stakingBalances := []
    stakingIssuance := 0
    liquidBalances := []
    liquidIssuance := 0
    nextQueryId := 0 }

/-! ## Invariants and auxiliary predicates -/

/-- Accumulator invariant of the Matching Pool: `locked <= total` on both
sides. -/
def PoolInv (p : MatchingLedger) : Prop :=
  p.total_stake_amount.locked ≤ p.total_stake_amount.total ∧
  p.total_unstake_amount.locked ≤ p.total_unstake_amount.total

instance (p : MatchingLedger) : Decidable (PoolInv p) := by
  unfold PoolInv; infer_instance

/-- Ledger invariant: `total = active + sum(unlocking.value)`. -/
def LedgerWf (l : StakingLedger) : Prop :=
  l.total = l.active + sumChunks l.unlocking

instance (l : StakingLedger) : Decidable (LedgerWf l) := by
  unfold LedgerWf; infer_instance

/-- The global accounting invariant: every pool accumulator satisfies
`locked <= total` and every stored staking ledger satisfies
`total = active + sum(unlocking.value)`. -/
def Invariant (s : State) : Prop :=
  PoolInv s.matchingPool ∧ ∀ pr ∈ s.stakingLedgers, LedgerWf pr.2

instance (s : State) : Decidable (Invariant s) := by
  unfold Invariant; infer_instance

/-- An operation is ledger-well-formed when any staking ledger it supplies
verbatim (the force-set and proof-based set entry points) satisfies the
ledger invariant. -/
def OpWf : Op → Prop
  | .forceSetStakingLedger _ ledger => LedgerWf ledger
  | .setStakingLedger _ ledger _ => LedgerWf ledger
  | _ => True

instance (op : Op) : Decidable (OpWf op) := by
  cases op <;> (unfold OpWf; infer_instance)

/-- Operations whose era mutation runs through `do_advance_era` (era
advance). -/
def IsEraAdvance : Op → Prop
  | .forceAdvanceEra _ _ => True
  | .setCurrentEra _ _ _ => True
  | .onInitialize _ => True
  | _ => False

instance (op : Op) : Decidable (IsEraAdvance op) := by
  cases op <;> (unfold IsEraAdvance; infer_instance)

/-- Application of a sequence of `recordStake` / `recordUnstake` calls
(`true` records a stake). -/
def recordOps (p : MatchingLedger) : List (Bool × Nat) → Except Err MatchingLedger
  | [] => .ok p
  | (true, a) :: rest =>
    match p.add_stake_amount a with
    | .error e => .error e
    | .ok p' => recordOps p' rest
  | (false, a) :: rest =>
    match p.add_unstake_amount a with
    | .error e => .error e
    | .ok p' => recordOps p' rest

/-- The empty matching pool. -/
def emptyPool : MatchingLedger := ⟨⟨0, 0⟩, ⟨0, 0⟩⟩

/-! ## Concrete fixtures used by witnesses and counterexamples -/

/-- A concrete configuration: two delegate indices, 1% fast-unstake fee, a
single-account distribution strategy. -/
def cfgT : Config :=
  { minStake := 10
    minUnstake := 5
    xcmFees := 0
    bondingDuration := 28
    minNominatorBond := 100
    eraLength := 100
    electionSolutionStoredOffset := 1000000000
    numSlashingSpans := 0
    derivativeIndexList := [0, 1]
    loansInstantUnstakeFee := 0
    matchingPoolFastUnstakeFee := 10 ^ 16
    getBondDistributions := fun _ total _ _ => [(0, total)]
    getUnbondDistributions := fun _ total _ => [(0, total)]
    getRebondDistributions := fun _ total => [(0, total)] }

/-- A concrete start state: rate 1.0, user 10 funded with base asset. -/
def sT0 : State :=
  { genesis E18 0 with
    stakingLedgerCap := 100000
    stakingBalances := [(10, 5000)] }

/-- State with one in-flight bond request, used for confirmation-failure
fixtures. -/
def sFlight : State :=
  { genesis E18 0 with xcmRequests := [(7, .bond 0 100)] }

/-- Fixture for fast-unstake settlement (scenario C): a pending request of
300 derivative units while the pool's free stake liquidity is 100. -/
def sFastC : State :=
  { genesis E18 0 with
    matchingPool := ⟨⟨100, 0⟩, ⟨0, 0⟩⟩
    fastUnstakeRequests := [(10, 300)]
    liquidBalances := [(10, 400)]
    liquidIssuance := 400
    stakingBalances := [(0, 1000)] }

/-- Fixture for claims: one matured and one immature chunk. -/
def sClaim : State :=
  { genesis E18 0 with
    currentEra := 30
    unlockings := [(10, [{ value := 400, era := 29 }, { value := 100, era := 57 }])]
    stakingBalances := [(0, 1000)] }

/-- Fixture for the exchange-rate update: active bonded 100, derivative
supply 50, current rate 1.0. -/
def sRate : State :=
  { genesis E18 0 with
    stakingLedgers := [(0, { stash := 1000, total := 100, active := 100, unlocking := [] })]
    liquidIssuance := 50 }

/-- Expected state after the exchange-rate update of `sRate`: rate 2.0. -/
def sRateAfter : State := { sRate with exchangeRate := 2 * E18 }

/-- State with one well-formed ledger at index 0 and free stake liquidity in
the pool. -/
def sLedger0 : State :=
  { genesis E18 0 with
    stakingLedgerCap := 100000
    matchingPool := ⟨⟨500, 0⟩, ⟨0, 0⟩⟩
    stakingLedgers := [(0, { stash := 1000, total := 600, active := 600, unlocking := [] })] }

/-- Fixture for scenario B: a depositor holding 800 derivative units, no
prior unlockings, rate 1.0. -/
def sUnstakeB : State :=
  { genesis E18 0 with liquidBalances := [(10, 800)], liquidIssuance := 800 }

/-- Fixture with a small ledger cap (global cap `100 * 2 = 200`), so a stake
of 1000 exceeds it. -/
def sCap : State := { sT0 with stakingLedgerCap := 100 }

/-- Reachable ill-formed-ledger sequence: stake, bond, confirmation, then a
forced overwrite with a ledger violating `total = active + sum(unlocking)`. -/
def badLedger : StakingLedger := { stash := 1000, total := 5, active := 1, unlocking := [] }

def opsBadLedger : List Op :=
  [ .stake 10 1000,
    .bond 0 600 .staked,
    .notificationReceived 0 none,
    .forceSetStakingLedger 0 badLedger ]

/-- The same reachable sequence without the ill-formed forced overwrite. -/
def opsGood : List Op :=
  [ .stake 10 1000,
    .bond 0 600 .staked,
    .notificationReceived 0 none ]

/-- Result of a forced era advance by one from genesis at oracle height
100. -/
def sAdv : State := { genesis E18 0 with eraStartBlock := 100, currentEra := 1 }

/-! ## Storage-map lemmas -/

theorem lookupA_insertA_self {α : Type} (k : Nat) (v : α) (m : List (Nat × α)) :
    lookupA k (insertA k v m) = some v := by
  induction m with
  | nil => simp [insertA, lookupA]
  | cons p rest ih =>
    by_cases h : k = p.1
    · simp [insertA, h, lookupA]
    · simp [insertA, h, lookupA, ih]

theorem lookupA_insertA_ne {α : Type} (k j : Nat) (v : α) (m : List (Nat × α))
    (h : j ≠ k) : lookupA j (insertA k v m) = lookupA j m := by
  induction m with
  | nil => simp [insertA, lookupA, h]
  | cons p rest ih =>
    by_cases hk : k = p.1
    · subst hk
      simp [insertA, lookupA, h]
    · by_cases hj : j = p.1
      · simp [insertA, hk, lookupA, hj]
      · simp [insertA, hk, lookupA, hj, ih]

theorem lookupA_removeA_self {α : Type} (k : Nat) (m : List (Nat × α)) :
    lookupA k (removeA k m) = none := by
  induction m with
  | nil => simp [removeA, lookupA]
  | cons p rest ih =>
    by_cases h : k = p.1
    · subst h
      simp [removeA, ih]
    · simp [removeA, h, lookupA, ih]

theorem lookupA_removeA_ne {α : Type} (k j : Nat) (m : List (Nat × α))
    (h : j ≠ k) : lookupA j (removeA k m) = lookupA j m := by
  induction m with
  | nil => simp [removeA, lookupA]
  | cons p rest ih =>
    by_cases hk : k = p.1
    · subst hk
      simp [removeA, lookupA, h, ih]
    · by_cases hj : j = p.1
      · simp [removeA, hk, lookupA, hj]
      · simp [removeA, hk, lookupA, hj, ih]

/-! ## C1 -/

/-- C1 (amended): when a confirmation arrives for a tracked correlation id
and the outcome indicates remote failure, the whole state is unchanged — in
particular the pending entry is RETAINED in the tracker (not removed), its
ledger and matching-pool effects are not applied, and the locked amounts stay
locked. -/
theorem c1_failure_retains_request (cfg : Config) (s : State)
    (queryId : Nat) (req : XcmRequest) (errCode : Nat)
    (h : lookupA queryId s.xcmRequests = some req) :
    step cfg s (.notificationReceived queryId (some errCode)) = .ok s := by
  simp [step, notificationReceivedCall, h, doNotificationReceived]

/-- C1 witness: the amended theorem applied at a concrete in-flight request. -/
theorem c1_failure_retains_request_witness :
    step cfgT sFlight (.notificationReceived 7 (some 3)) = .ok sFlight :=
  c1_failure_retains_request cfgT sFlight 7 (.bond 0 100) 3 (by decide)

/-- C1 counterexample: after a remote-failure confirmation for tracked id 7
the processing succeeds, yet the pending entry is still present in the
tracker, contradicting the claim that it is removed. -/
theorem c1_failure_entry_not_removed :
    step cfgT sFlight (.notificationReceived 7 (some 3)) = .ok sFlight ∧
    lookupA 7 (exec cfgT sFlight (.notificationReceived 7 (some 3))).xcmRequests
      = some (.bond 0 100) := by
  constructor
  · rfl
  · decide

/-! ## C10 -/

theorem doBondExtra_ne_alreadyBonded (cfg : Config) (s : State)
    (index : Nat) (amount : Nat) :
    doBondExtra cfg s index amount ≠ .error .alreadyBonded := by
  intro h
  unfold doBondExtra at h
  split at h
  · simp at h
  · split at h
    · split at h
      · split at h
        · rename_i e heq
          unfold ensureStakingLedgerCap at heq
          split at heq <;> simp_all
        · split at h
          · rename_i e heq
            unfold MatchingLedger.set_stake_amount_lock at heq
            split at heq <;> simp_all
          · simp at h
      · simp at h
    · simp at h

/-- C10: for a derivative index that already has a staking ledger, `do_bond`
behaves exactly as `do_bond_extra` (and in particular never fails with the
already-bonded error); and every bond / bond-extra / unbond / rebond
submission with amount zero succeeds as a no-op — the state (hence also the
set of submitted remote operations) is unchanged — even when the index is not
in the configured list. -/
theorem c10_bond_delegates_and_zero_noop :
    (∀ (cfg : Config) (s : State) (index : Nat) (amount : Nat)
       (payee : RewardDestination),
       (lookupA index s.stakingLedgers).isSome = true →
       doBond cfg s index amount payee = doBondExtra cfg s index amount ∧
       doBond cfg s index amount payee ≠ .error .alreadyBonded) ∧
    (∀ (cfg : Config) (s : State) (index : Nat)
       (payee : RewardDestination), doBond cfg s index 0 payee = .ok s) ∧
    (∀ (cfg : Config) (s : State) (index : Nat),
       doBondExtra cfg s index 0 = .ok s) ∧
    (∀ (cfg : Config) (s : State) (index : Nat),
       doUnbond cfg s index 0 = .ok s) ∧
    (∀ (cfg : Config) (s : State) (index : Nat),
       doRebond cfg s index 0 = .ok s) := by
  refine ⟨?_, ?_, ?_, ?_, ?_⟩
  · intro cfg s index amount payee h
    have heq : doBond cfg s index amount payee = doBondExtra cfg s index amount := by
      by_cases hz : amount = 0
      · subst hz
        simp [doBond, doBondExtra]
      · simp [doBond, hz, h]
    exact ⟨heq, heq ▸ doBondExtra_ne_alreadyBonded cfg s index amount⟩
  · intro cfg s index payee
    simp [doBond]
  · intro cfg s index
    simp [doBondExtra]
  · intro cfg s index
    simp [doUnbond]
  · intro cfg s index
    simp [doRebond]

/-- C10 witness: at a state holding a ledger at index 0, bonding delegates to
bond-extra, and the zero no-ops hold concretely. -/
theorem c10_bond_delegates_and_zero_noop_witness :
    doBond cfgT sLedger0 0 50 .staked = doBondExtra cfgT sLedger0 0 50 ∧
    doBond cfgT sLedger0 0 50 .staked ≠ .error .alreadyBonded :=
  c10_bond_delegates_and_zero_noop.1 cfgT sLedger0 0 50 .staked (by decide)

/-! ## C2 -/

theorem add_stake_amount_shape (p q : MatchingLedger) (a : Nat)
    (h : p.add_stake_amount a = .ok q) :
    q.total_stake_amount.locked = p.total_stake_amount.locked ∧
    q.total_unstake_amount = p.total_unstake_amount ∧
    p.total_stake_amount.total ≤ q.total_stake_amount.total := by
  unfold MatchingLedger.add_stake_amount at h
  split at h
  · simp at h
  · rename_i t heq
    simp only [Except.ok.injEq] at h
    subst h
    unfold checkedAdd at heq
    split at heq
    · simp only [Option.some.injEq] at heq
      subst heq
      exact ⟨rfl, rfl, Nat.le_add_right _ _⟩
    · simp at heq

theorem add_unstake_amount_shape (p q : MatchingLedger) (a : Nat)
    (h : p.add_unstake_amount a = .ok q) :
    q.total_unstake_amount.locked = p.total_unstake_amount.locked ∧
    q.total_stake_amount = p.total_stake_amount ∧
    p.total_unstake_amount.total ≤ q.total_unstake_amount.total := by
  unfold MatchingLedger.add_unstake_amount at h
  split at h
  · simp at h
  · rename_i t heq
    simp only [Except.ok.injEq] at h
    subst h
    unfold checkedAdd at heq
    split at heq
    · simp only [Option.some.injEq] at heq
      subst heq
      exact ⟨rfl, rfl, Nat.le_add_right _ _⟩
    · simp at heq

theorem recordOps_poolInv (l : List (Bool × Nat)) (p q : MatchingLedger)
    (hp : PoolInv p) (h : recordOps p l = .ok q) : PoolInv q := by
  induction l generalizing p with
  | nil =>
    unfold recordOps at h
    simp at h
    exact h ▸ hp
  | cons hd rest ih =>
    obtain ⟨b, a⟩ := hd
    cases b <;>
      (unfold recordOps at h
       split at h
       · simp at h
       · rename_i p' heq
         first
           | exact ih p'
               ⟨(add_stake_amount_shape p p' a heq).1.le.trans
                  (hp.1.trans (add_stake_amount_shape p p' a heq).2.2),
                (add_stake_amount_shape p p' a heq).2.1 ▸ hp.2⟩ h
           | exact ih p'
               ⟨(add_unstake_amount_shape p p' a heq).2.1 ▸ hp.1,
                (add_unstake_amount_shape p p' a heq).1.le.trans
                  (hp.2.trans (add_unstake_amount_shape p p' a heq).2.2)⟩ h)

/-- C2: for every matching-pool state whose accumulators satisfy
`locked <= total` and every `totalCurrentlyUnbonding`, the matching
computation returns exactly the triple of the spec's formula over
`netStake = stakeTotal.free()` and `netUnstake = unstakeTotal.free()`; the
components are non-negative (they live in `Nat`) and at most one of the bond
and unbond components is nonzero; moreover after any sequence of
`recordStake` / `recordUnstake` calls from the empty pool, `matching` returns
such a triple. -/
theorem c2_matching_formula :
    (∀ (p : MatchingLedger) (u : Nat),
       p.total_stake_amount.locked ≤ p.total_stake_amount.total →
       p.total_unstake_amount.locked ≤ p.total_unstake_amount.total →
       p.matching u =
         .ok
           (if p.total_unstake_amount.total - p.total_unstake_amount.locked ≤
               p.total_stake_amount.total - p.total_stake_amount.locked then
              (p.total_stake_amount.total - p.total_stake_amount.locked -
                 (p.total_unstake_amount.total - p.total_unstake_amount.locked),
               min (p.total_unstake_amount.total - p.total_unstake_amount.locked) u, 0)
            else
              (0, min (p.total_stake_amount.total - p.total_stake_amount.locked) u,
               p.total_unstake_amount.total - p.total_unstake_amount.locked -
                 (p.total_stake_amount.total - p.total_stake_amount.locked) -
                 min (p.total_stake_amount.total - p.total_stake_amount.locked) u)) ∧
       (∀ b r ub, p.matching u = .ok (b, r, ub) → b = 0 ∨ ub = 0)) ∧
    (∀ (l : List (Bool × Nat)) (q : MatchingLedger) (u : Nat),
       recordOps emptyPool l = .ok q →
       ∃ b r ub, q.matching u = .ok (b, r, ub) ∧ (b = 0 ∨ ub = 0)) := by
  have formula : ∀ (p : MatchingLedger) (u : Nat),
      p.total_stake_amount.locked ≤ p.total_stake_amount.total →
      p.total_unstake_amount.locked ≤ p.total_unstake_amount.total →
      p.matching u =
        .ok
          (if p.total_unstake_amount.total - p.total_unstake_amount.locked ≤
              p.total_stake_amount.total - p.total_stake_amount.locked then
             (p.total_stake_amount.total - p.total_stake_amount.locked -
                (p.total_unstake_amount.total - p.total_unstake_amount.locked),
              min (p.total_unstake_amount.total - p.total_unstake_amount.locked) u, 0)
           else
             (0, min (p.total_stake_amount.total - p.total_stake_amount.locked) u,
              p.total_unstake_amount.total - p.total_unstake_amount.locked -
                (p.total_stake_amount.total - p.total_stake_amount.locked) -
                min (p.total_stake_amount.total - p.total_stake_amount.locked) u)) := by
    intro p u hs hu
    by_cases hc : p.total_unstake_amount.total - p.total_unstake_amount.locked ≤
        p.total_stake_amount.total - p.total_stake_amount.locked <;>
      simp [MatchingLedger.matching, BondingAmounts.free, hs, hu, hc]
  have atMostOne : ∀ (p : MatchingLedger) (u : Nat) (b r ub : Nat),
      p.matching u = .ok (b, r, ub) → b = 0 ∨ ub = 0 := by
    intro p u b r ub h
    unfold MatchingLedger.matching at h
    split at h
    · simp at h
    · split at h
      · simp at h
      · split at h
        · simp at h
          right
          exact h.2.2.symm
        · simp at h
          left
          exact h.1.symm
  refine ⟨fun p u hs hu => ⟨formula p u hs hu, atMostOne p u⟩, ?_⟩
  intro l q u h
  have hinv : PoolInv q := recordOps_poolInv l emptyPool q (by simp [PoolInv, emptyPool]) h
  refine ⟨_, _, _, formula q u hinv.1 hinv.2, ?_⟩
  exact atMostOne q u _ _ _ (formula q u hinv.1 hinv.2)

/-- C2 witness: the formula evaluated on a concrete pool (stake 400 free,
unstake 500 free, 100 currently unbonding). -/
theorem c2_matching_formula_witness :
    (⟨⟨400, 0⟩, ⟨500, 0⟩⟩ : MatchingLedger).matching 100 = .ok (0, 100, 0) ∧
    ((0 : Nat) = 0 ∨ (0 : Nat) = 0) := by
  have h := c2_matching_formula.1 ⟨⟨400, 0⟩, ⟨500, 0⟩⟩ 100 (by decide) (by decide)
  exact ⟨by rw [h.1]; decide, Or.inl rfl⟩

/-! ## C4 -/

theorem checked_chain_some (a st ut numerator : Nat)
    (h : (checkedAdd a st).bind (fun r => checkedSub r ut) = some numerator) :
    numerator = a + st - ut := by
  unfold checkedAdd checkedSub at h
  split at h
  · simp only [Option.bind] at h
    split at h <;> simp_all
  · simp at h

theorem checkedFromRational_shape (a b r : Nat)
    (h : checkedFromRational a b = some r) : r = a * E18 / b ∧ b ≠ 0 := by
  unfold checkedFromRational at h
  split at h
  · simp at h
  · split at h <;> simp_all

/-- C4: exchange-rate recomputation writes
`(totalActiveBonded + stake - unstake) / derivativeSupply` only when the
derivative supply is nonzero and the new rate is strictly greater than the
current one; otherwise the stored rate is unchanged; consequently the rate
after recomputation is never less than before. -/
theorem c4_exchange_rate_monotone :
    (∀ (s s' : State), doUpdateExchangeRate s = .ok s' →
       s.exchangeRate ≤ s'.exchangeRate ∧
       (s' = s ∨
         (s.liquidIssuance ≠ 0 ∧
          s'.exchangeRate =
            (getTotalActiveBonded s + s.matchingPool.total_stake_amount.total -
               s.matchingPool.total_unstake_amount.total) * E18 / s.liquidIssuance ∧
          s.exchangeRate < s'.exchangeRate ∧
          s' = { s with exchangeRate := s'.exchangeRate }))) ∧
    (∀ s : State, s.liquidIssuance = 0 → doUpdateExchangeRate s = .ok s) ∧
    (∀ (s : State) (numerator newRate : Nat),
       (checkedAdd (getTotalActiveBonded s) s.matchingPool.total_stake_amount.total).bind
           (fun r => checkedSub r s.matchingPool.total_unstake_amount.total) =
         some numerator →
       checkedFromRational numerator s.liquidIssuance = some newRate →
       newRate ≤ s.exchangeRate →
       doUpdateExchangeRate s = .ok s) := by
  refine ⟨?_, ?_, ?_⟩
  · intro s s' h
    unfold doUpdateExchangeRate at h
    split at h
    · simp at h
      exact h ▸ ⟨le_rfl, Or.inl rfl⟩
    · rename_i hz
      split at h
      · simp at h
      · rename_i numerator hnum
        split at h
        · simp at h
        · rename_i newRate hrat
          split at h
          · rename_i hlt
            simp at h
            subst h
            refine ⟨le_of_lt hlt, Or.inr ⟨hz, ?_, hlt, rfl⟩⟩
            have h1 := checked_chain_some _ _ _ _ hnum
            have h2 := (checkedFromRational_shape _ _ _ hrat).1
            simp [h2, h1]
          · simp at h
            exact h ▸ ⟨le_rfl, Or.inl rfl⟩
  · intro s hz
    unfold doUpdateExchangeRate
    simp [hz]
  · intro s numerator newRate hnum hrat hle
    unfold doUpdateExchangeRate
    split
    · rfl
    · simp only [hnum, hrat]
      rw [if_neg (Nat.not_lt.mpr hle)]

/-- C4 witness: the update applied at a concrete state (active bonded 100,
supply 50, rate 1.0 → rate 2.0). -/
theorem c4_exchange_rate_monotone_witness :
    sRate.exchangeRate ≤ sRateAfter.exchangeRate ∧
    (sRateAfter = sRate ∨
      (sRate.liquidIssuance ≠ 0 ∧
       sRateAfter.exchangeRate =
         (getTotalActiveBonded sRate + sRate.matchingPool.total_stake_amount.total -
            sRate.matchingPool.total_unstake_amount.total) * E18 / sRate.liquidIssuance ∧
       sRate.exchangeRate < sRateAfter.exchangeRate ∧
       sRateAfter = { sRate with exchangeRate := sRateAfter.exchangeRate })) :=
  c4_exchange_rate_monotone.1 sRate sRateAfter (by rfl)

/-! ## C8 -/

/-- C8: a stake is rejected with `CapExceeded` exactly when the total bonded
across all delegate ledgers plus the (net) amount being staked would exceed
the global cap `perDelegateCap * numDelegates`; the analogous per-delegate
check is performed before any bond or bond-extra submission; and a rejected
stake leaves all state unchanged. -/
theorem c8_cap_policy :
    (∀ (cfg : Config) (s : State) (amount : Nat),
       getTotalBonded s + amount ≤ UMAX →
       s.stakingLedgerCap * cfg.derivativeIndexList.length ≤ UMAX →
       (ensureMarketCap cfg s amount = .error .capExceeded ↔
         s.stakingLedgerCap * cfg.derivativeIndexList.length <
           getTotalBonded s + amount)) ∧
    (∀ (cfg : Config) (s : State) (who : Nat)
       (amount afterFees netAmount la : Nat) (m1 : Balances),
       cfg.minStake ≤ amount →
       checkedSub amount cfg.xcmFees = some afterFees →
       transferBal s.stakingBalances who palletAccount afterFees = .ok m1 →
       checkedSub afterFees (mulFloor s.reserveFactor amount) = some netAmount →
       stakingToLiquid s netAmount = some la →
       (stakeCall cfg s who amount = .error .capExceeded ↔
         getMarketCap cfg s < satAdd (getTotalBonded s) netAmount)) ∧
    (∀ (cfg : Config) (s : State) (index : Nat) (amount : Nat)
       (payee : RewardDestination),
       amount ≠ 0 → lookupA index s.stakingLedgers = none →
       index ∈ cfg.derivativeIndexList → cfg.minNominatorBond ≤ amount →
       (doBond cfg s index amount payee = .error .capExceeded ↔
         s.stakingLedgerCap < satAdd (totalBondedOf s index) amount)) ∧
    (∀ (cfg : Config) (s : State) (index : Nat) (amount : Nat),
       amount ≠ 0 → (lookupA index s.stakingLedgers).isSome = true →
       index ∈ cfg.derivativeIndexList →
       (doBondExtra cfg s index amount = .error .capExceeded ↔
         s.stakingLedgerCap < satAdd (totalBondedOf s index) amount)) ∧
    (∀ (cfg : Config) (s : State) (who : Nat) (amount : Nat) (e : Err),
       step cfg s (.stake who amount) = .error e →
       exec cfg s (.stake who amount) = s) := by
  refine ⟨?_, ?_, ?_, ?_, ?_⟩
  · intro cfg s amount h1 h2
    unfold ensureMarketCap getMarketCap satAdd satMul
    rw [min_eq_left h1, min_eq_left h2]
    constructor
    · intro h
      split at h
      · simp at h
      · rename_i hgt
        exact Nat.not_le.mp hgt
    · intro h
      rw [if_neg (Nat.not_le.mpr h)]
  · intro cfg s who amount afterFees netAmount la m1 hmin hfee htr hres hconv
    unfold stakeCall
    rw [if_pos hmin, hfee]
    simp only [htr, hres, hconv]
    constructor
    · intro h
      unfold ensureMarketCap at h
      split at h
      · rename_i e hle
        split at hle
        · simp at hle
        · rename_i hgt
          exact Nat.not_le.mp hgt
      · exfalso
        split at h
        · rename_i e heq
          unfold MatchingLedger.add_stake_amount at heq
          split at heq <;> simp_all
        · split at h <;> simp_all
    · intro h
      unfold ensureMarketCap
      rw [if_neg (Nat.not_le.mpr h)]
  · intro cfg s index amount payee hz hnone hidx hbond
    unfold doBond
    rw [if_neg hz, hnone]
    simp only [Option.isSome_none, Bool.false_eq_true, if_false, if_pos hidx, if_pos hbond]
    constructor
    · intro h
      unfold ensureStakingLedgerCap at h
      split at h
      · rename_i e hle
        split at hle
        · simp at hle
        · rename_i hgt
          exact Nat.not_le.mp hgt
      · exfalso
        split at h
        · rename_i e heq
          unfold MatchingLedger.set_stake_amount_lock at heq
          split at heq <;> simp_all
        · simp at h
    · intro h
      unfold ensureStakingLedgerCap
      rw [if_neg (Nat.not_le.mpr h)]
  · intro cfg s index amount hz hsome hidx
    unfold doBondExtra
    rw [if_neg hz, if_pos hidx, if_pos hsome]
    constructor
    · intro h
      unfold ensureStakingLedgerCap at h
      split at h
      · rename_i e hle
        split at hle
        · simp at hle
        · rename_i hgt
          exact Nat.not_le.mp hgt
      · exfalso
        split at h
        · rename_i e heq
          unfold MatchingLedger.set_stake_amount_lock at heq
          split at heq <;> simp_all
        · simp at h
    · intro h
      unfold ensureStakingLedgerCap
      rw [if_neg (Nat.not_le.mpr h)]
  · intro cfg s who amount e h
    simp [exec, h]

/-- C8 witness: at a state with per-ledger cap 100 and two delegates (global
cap 200), a stake of 1000 is rejected with `CapExceeded`. -/
theorem c8_cap_policy_witness :
    stakeCall cfgT sCap 10 1000 = .error .capExceeded ↔
      getMarketCap cfgT sCap < satAdd (getTotalBonded sCap) 1000 :=
  c8_cap_policy.2.1 cfgT sCap 10 1000 1000 1000 1000 [(10, 4000), (0, 1000)]
    (by decide) (by decide) (by decide) (by decide) (by decide)

/-! ## C7 -/

theorem addChunk_merge (chunks : List UnlockChunk) (a : Nat) (e : Nat)
    (c : UnlockChunk) (hl : chunks.getLast? = some c) (he : c.era = e) :
    addChunk chunks a e = chunks.dropLast ++ [{ value := satAdd c.value a, era := e }] := by
  induction chunks with
  | nil => simp at hl
  | cons hd rest ih =>
    cases rest with
    | nil =>
      simp at hl
      subst hl
      simp [addChunk, he]
    | cons hd2 rest2 =>
      rw [List.getLast?_cons_cons] at hl
      simp [addChunk, ih hl]

theorem addChunk_append (chunks : List UnlockChunk) (a : Nat) (e : Nat)
    (c : UnlockChunk) (hl : chunks.getLast? = some c) (he : c.era ≠ e) :
    addChunk chunks a e = chunks ++ [{ value := a, era := e }] := by
  induction chunks with
  | nil => simp at hl
  | cons hd rest ih =>
    cases rest with
    | nil =>
      simp at hl
      subst hl
      simp [addChunk, he]
    | cons hd2 rest2 =>
      rw [List.getLast?_cons_cons] at hl
      simp [addChunk, ih hl]

/-- C7: a successful non-fast unstake records an unlock chunk for the
depositor whose value is the converted base amount and whose era is
`current_era + bondingDuration + 1`; the chunk is merged into the last
existing chunk when that chunk has the same era, otherwise appended; and the
operation fails with `NoMoreChunks` when the resulting list would exceed 32
entries. -/
theorem c7_unstake_records_chunk :
    (∀ (chunks : List UnlockChunk) (a : Nat) (e : Nat) (c : UnlockChunk),
       chunks.getLast? = some c → c.era = e →
       addChunk chunks a e =
         chunks.dropLast ++ [{ value := satAdd c.value a, era := e }]) ∧
    (∀ (chunks : List UnlockChunk) (a : Nat) (e : Nat) (c : UnlockChunk),
       chunks.getLast? = some c → c.era ≠ e →
       addChunk chunks a e = chunks ++ [{ value := a, era := e }]) ∧
    (∀ (a : Nat) (e : Nat),
       addChunk [] a e = [{ value := a, era := e }]) ∧
    (∀ (cfg : Config) (s : State) (who : Nat) (la amount : Nat),
       cfg.minUnstake ≤ la →
       liquidToStaking s la = some amount →
       la ≤ balOf who s.liquidBalances →
       s.matchingPool.total_unstake_amount.total + amount ≤ UMAX →
       (addChunk ((lookupA who s.unlockings).getD []) amount
           (s.currentEra + cfg.bondingDuration + 1)).length ≤ MAX_UNLOCKING_CHUNKS →
       ∃ s', unstakeCall cfg s who la .relayChain = .ok s' ∧
         lookupA who s'.unlockings =
           some (addChunk ((lookupA who s.unlockings).getD []) amount
             (s.currentEra + cfg.bondingDuration + 1))) ∧
    (∀ (cfg : Config) (s : State) (who : Nat) (la amount : Nat),
       cfg.minUnstake ≤ la →
       liquidToStaking s la = some amount →
       MAX_UNLOCKING_CHUNKS <
         (addChunk ((lookupA who s.unlockings).getD []) amount
           (s.currentEra + cfg.bondingDuration + 1)).length →
       unstakeCall cfg s who la .relayChain = .error .noMoreChunks) := by
  refine ⟨addChunk_merge, addChunk_append, fun a e => rfl, ?_, ?_⟩
  · intro cfg s who la amount hmin hconv hbal hpool hlen
    unfold unstakeCall
    rw [if_pos hmin]
    simp only [UnstakeProvider.is_matching_pool, UnstakeProvider.is_loans, hconv,
      Bool.false_eq_true, if_false, targetEra]
    rw [if_pos hlen]
    unfold burnBal
    rw [if_pos hbal]
    unfold MatchingLedger.add_unstake_amount checkedAdd
    rw [if_pos hpool]
    exact ⟨_, rfl, lookupA_insertA_self who _ s.unlockings⟩
  · intro cfg s who la amount hmin hconv hlen
    unfold unstakeCall
    rw [if_pos hmin]
    simp only [UnstakeProvider.is_matching_pool, UnstakeProvider.is_loans, hconv,
      Bool.false_eq_true, if_false, targetEra]
    rw [if_neg (Nat.not_le.mpr hlen)]

/-- C7 witness: unstaking 500 derivative at rate 1.0 with no prior unlockings
yields exactly one chunk of value 500 at era `0 + 28 + 1`. -/
theorem c7_unstake_records_chunk_witness :
    ∃ s', unstakeCall cfgT sUnstakeB 10 500 .relayChain = .ok s' ∧
      lookupA 10 s'.unlockings =
        some (addChunk ((lookupA 10 sUnstakeB.unlockings).getD []) 500
          (sUnstakeB.currentEra + cfgT.bondingDuration + 1)) :=
  c7_unstake_records_chunk.2.2.2.1 cfgT sUnstakeB 10 500 500
    (by decide) (by decide) (by decide) (by decide) (by decide)

/-! ## C6 -/

theorem balOf_insertA_self (k : Nat) (v : Nat) (m : Balances) :
    balOf k (insertA k v m) = v := by
  simp [balOf, lookupA_insertA_self]

theorem balOf_insertA_ne (k j : Nat) (v : Nat) (m : Balances)
    (h : j ≠ k) : balOf j (insertA k v m) = balOf j m := by
  simp [balOf, lookupA_insertA_ne _ _ _ _ h]

/-- Rounding safety: converting back to base asset an amount bounded by the
derivative value of the free stake never exceeds the free stake. -/
theorem toBase_le_free (rate free recip avail burn toReceive : Nat)
    (hrec : reciprocal rate = some recip)
    (havail : checkedMulInt recip free = some avail)
    (hburn : burn ≤ avail)
    (htr : checkedMulInt rate burn = some toReceive) :
    toReceive ≤ free := by
  have hE : 0 < E18 := by decide
  unfold reciprocal checkedFromRational at hrec
  split at hrec
  · simp at hrec
  · split at hrec
    · simp only [Option.some.injEq] at hrec
      subst hrec
      unfold checkedMulInt at havail htr
      split at havail
      · simp only [Option.some.injEq] at havail
        subst havail
        split at htr
        · simp only [Option.some.injEq] at htr
          subst htr
          have h1 : burn * E18 ≤ E18 * E18 / rate * free :=
            (Nat.le_div_iff_mul_le hE).mp hburn
          have h2 : rate * (E18 * E18 / rate) ≤ E18 * E18 := by
            rw [mul_comm]
            exact Nat.div_mul_le_self (E18 * E18) rate
          have h3 : rate * burn * E18 ≤ E18 * free * E18 := by
            calc rate * burn * E18 = rate * (burn * E18) := by ring
              _ ≤ rate * (E18 * E18 / rate * free) :=
                  Nat.mul_le_mul_left rate h1
              _ = rate * (E18 * E18 / rate) * free := by ring
              _ ≤ E18 * E18 * free := Nat.mul_le_mul_right free h2
              _ = E18 * free * E18 := by ring
          have h4 : rate * burn ≤ E18 * free := Nat.le_of_mul_le_mul_right h3 hE
          calc rate * burn / E18 ≤ E18 * free / E18 := Nat.div_le_div_right h4
            _ = free := Nat.mul_div_cancel_left free hE
        · simp at htr
      · simp at havail
    · simp at hrec

/-- C6: fast-unstake settlement matches
`min(requestAmount, toDerivative(stakeFree))`, splits the matched amount into
the configured fee (paid in derivative token to the protocol fee receiver)
and a burned net amount, converts the net amount to base asset via the rate,
subtracts that base amount from the matching pool's stake total, pays it to
the depositor, and leaves the unmatched remainder queued. -/
theorem c6_fast_unstake_settlement (cfg : Config) (s : State)
    (unstaker : Nat) (req recip avail matched fee burn toReceive : Nat)
    (hreq : lookupA unstaker s.fastUnstakeRequests = some req)
    (hbal : req ≤ balOf unstaker s.liquidBalances)
    (hinv : s.matchingPool.total_stake_amount.locked ≤
      s.matchingPool.total_stake_amount.total)
    (hrec : reciprocal s.exchangeRate = some recip)
    (havail : checkedMulInt recip
        (s.matchingPool.total_stake_amount.total -
          s.matchingPool.total_stake_amount.locked) = some avail)
    (hm : matched = min req avail)
    (hmz : matched ≠ 0)
    (hf : fee = satMulInt cfg.matchingPoolFastUnstakeFee matched)
    (hfle : fee ≤ matched)
    (hb : burn = matched - fee)
    (hconv : checkedMulInt s.exchangeRate burn = some toReceive)
    (hpay : s.matchingPool.total_stake_amount.total ≤
      balOf palletAccount s.stakingBalances)
    (hne1 : unstaker ≠ palletAccount)
    (hne2 : unstaker ≠ feeReceiver) :
    ∃ s', doFastMatchUnstake cfg s unstaker = .ok s' ∧
      s'.matchingPool.total_stake_amount.total =
        s.matchingPool.total_stake_amount.total - toReceive ∧
      s'.matchingPool.total_stake_amount.locked =
        s.matchingPool.total_stake_amount.locked ∧
      s'.matchingPool.total_unstake_amount = s.matchingPool.total_unstake_amount ∧
      balOf unstaker s'.stakingBalances =
        balOf unstaker s.stakingBalances + toReceive ∧
      balOf unstaker s'.liquidBalances =
        balOf unstaker s.liquidBalances - matched ∧
      balOf feeReceiver s'.liquidBalances =
        balOf feeReceiver s.liquidBalances + fee ∧
      s'.liquidIssuance = s.liquidIssuance - burn ∧
      lookupA unstaker s'.fastUnstakeRequests =
        (if req - matched = 0 then none else some (req - matched)) := by
  have hE : 0 < E18 := by decide
  have hmr : matched ≤ req := by
    rw [hm]
    exact min_le_left _ _
  have hma : matched ≤ avail := by
    rw [hm]
    exact min_le_right _ _
  have hba : burn ≤ avail := by omega
  have hfree := toBase_le_free s.exchangeRate
    (s.matchingPool.total_stake_amount.total - s.matchingPool.total_stake_amount.locked)
    recip avail burn toReceive hrec havail hba hconv
  have hble : burn ≤ balOf unstaker s.liquidBalances := by omega
  unfold doFastMatchUnstake
  rw [hreq]
  unfold BondingAmounts.free
  rw [if_pos hinv]
  unfold stakingToLiquid
  rw [hrec]
  simp only [Option.some_bind]
  rw [havail]
  simp only [min_eq_left hbal]
  rw [← hm, ← hf]
  rw [if_neg hmz]
  unfold burnBal
  unfold satSub
  rw [← hb]
  rw [if_pos hble]
  unfold transferBal
  simp only [balOf_insertA_self]
  rw [if_pos (show fee ≤ balOf unstaker s.liquidBalances - burn by omega)]
  unfold liquidToStaking
  rw [hconv]
  unfold MatchingLedger.sub_stake_amount
  dsimp only
  rw [if_pos (show s.matchingPool.total_stake_amount.locked + toReceive ≤
    s.matchingPool.total_stake_amount.total by omega)]
  rw [if_pos (show toReceive ≤ balOf palletAccount s.stakingBalances by omega)]
  refine ⟨_, rfl, rfl, rfl, rfl, ?_, ?_, ?_, rfl, ?_⟩
  · simp [balOf_insertA_self, balOf_insertA_ne _ _ _ _ hne1]
  · simp only [balOf_insertA_ne _ _ _ _ hne2, balOf_insertA_self]
    omega
  · have hrs : feeReceiver ≠ unstaker := Ne.symm hne2
    simp only [balOf_insertA_self, balOf_insertA_ne _ _ _ _ hrs]
  · by_cases hz : req - matched = 0
    · simp [hz, lookupA_removeA_self]
    · simp [hz, lookupA_insertA_self]

/-- C6 witness (scenario C): a fast-unstake request of 300 against a free
stake liquidity of 100 settles 100 (fee 1, burn 99, payout 99) and leaves 200
queued. -/
theorem c6_fast_unstake_settlement_witness :
    ∃ s', doFastMatchUnstake cfgT sFastC 10 = .ok s' ∧
      s'.matchingPool.total_stake_amount.total =
        sFastC.matchingPool.total_stake_amount.total - 99 ∧
      s'.matchingPool.total_stake_amount.locked =
        sFastC.matchingPool.total_stake_amount.locked ∧
      s'.matchingPool.total_unstake_amount = sFastC.matchingPool.total_unstake_amount ∧
      balOf 10 s'.stakingBalances = balOf 10 sFastC.stakingBalances + 99 ∧
      balOf 10 s'.liquidBalances = balOf 10 sFastC.liquidBalances - 100 ∧
      balOf feeReceiver s'.liquidBalances =
        balOf feeReceiver sFastC.liquidBalances + 1 ∧
      s'.liquidIssuance = sFastC.liquidIssuance - 99 ∧
      lookupA 10 s'.fastUnstakeRequests =
        (if 300 - 100 = 0 then none else some (300 - 100)) :=
  c6_fast_unstake_settlement cfgT sFastC 10 300 E18 100 100 1 99 99
    (by decide) (by decide) (by decide) (by decide) (by decide) (by decide)
    (by decide) (by decide) (by decide) (by decide) (by decide) (by decide)
    (by decide) (by decide)

/-! ## C9 -/

/-- C9: the claim operation removes exactly the unlock chunks whose era is at
most the current era and pays out their summed value to the depositor; it
fails with `NoUnlockings` when the depositor has no unlockings entry, with
`NothingToClaim` when no chunk has matured, and with `NotWithdrawn` when the
unencumbered base-asset balance (reducible balance minus reserves minus the
matching pool's stake total) is less than the matured sum; every failure
leaves the state unchanged. -/
theorem c9_claim_for (s : State) (who : Nat) :
    (lookupA who s.unlockings = none →
       claimForCall s who = .error .noUnlockings) ∧
    (∀ chunks, lookupA who s.unlockings = some chunks →
       sumChunks (chunks.filter fun c => decide (¬ s.currentEra < c.era)) = 0 →
       claimForCall s who = .error .nothingToClaim) ∧
    (∀ chunks, lookupA who s.unlockings = some chunks →
       sumChunks (chunks.filter fun c => decide (¬ s.currentEra < c.era)) ≠ 0 →
       getTotalUnclaimed s <
         sumChunks (chunks.filter fun c => decide (¬ s.currentEra < c.era)) →
       claimForCall s who = .error .notWithdrawn) ∧
    (∀ chunks, lookupA who s.unlockings = some chunks →
       who ≠ loansAccount → who ≠ palletAccount →
       sumChunks (chunks.filter fun c => decide (¬ s.currentEra < c.era)) ≠ 0 →
       sumChunks (chunks.filter fun c => decide (¬ s.currentEra < c.era)) ≤
         getTotalUnclaimed s →
       ∃ s', claimForCall s who = .ok s' ∧
         lookupA who s'.unlockings =
           (if (chunks.filter fun c => decide (s.currentEra < c.era)).isEmpty
            then none
            else some (chunks.filter fun c => decide (s.currentEra < c.era))) ∧
         balOf who s'.stakingBalances =
           balOf who s.stakingBalances +
             sumChunks (chunks.filter fun c => decide (¬ s.currentEra < c.era)) ∧
         balOf palletAccount s'.stakingBalances =
           balOf palletAccount s.stakingBalances -
             sumChunks (chunks.filter fun c => decide (¬ s.currentEra < c.era))) ∧
    (∀ (cfg : Config) (e : Err), step cfg s (.claimFor who) = .error e →
       exec cfg s (.claimFor who) = s) := by
  refine ⟨?_, ?_, ?_, ?_, ?_⟩
  · intro h
    unfold claimForCall
    rw [h]
  · intro chunks h hz
    unfold claimForCall
    rw [h]
    simp only [hz]
    rfl
  · intro chunks h hz hlt
    unfold claimForCall
    rw [h]
    simp only [if_neg hz]
    rw [if_pos hlt]
  · intro chunks h hloans hpallet hz hle
    have hbal : sumChunks (chunks.filter fun c => decide (¬ s.currentEra < c.era)) ≤
        balOf palletAccount s.stakingBalances := by
      unfold getTotalUnclaimed satSub at hle
      omega
    unfold claimForCall
    rw [h]
    simp only [if_neg hz]
    rw [if_neg (Nat.not_lt.mpr hle)]
    unfold doClaimFor
    rw [if_neg hloans]
    unfold transferBal
    rw [if_pos hbal]
    refine ⟨_, rfl, ?_, ?_, ?_⟩
    · by_cases hk : (chunks.filter fun c => decide (s.currentEra < c.era)).isEmpty
      · simp [hk, lookupA_removeA_self]
      · simp [hk, lookupA_insertA_self]
    · simp [balOf_insertA_self, balOf_insertA_ne _ _ _ _ hpallet]
    · have hwp : palletAccount ≠ who := Ne.symm hpallet
      simp [balOf_insertA_self, balOf_insertA_ne _ _ _ _ hwp]
  · intro cfg e hstep
    simp [exec, hstep]

/-- C9 witness: at era 30 with chunks `[{400, 29}, {100, 57}]` the matured
400 is paid out and the immature chunk stays. -/
theorem c9_claim_for_witness :
    ∃ s', claimForCall sClaim 10 = .ok s' ∧
      lookupA 10 s'.unlockings =
        (if ((sClaim.unlockings.head!.2).filter fun c =>
               decide (sClaim.currentEra < c.era)).isEmpty
         then none
         else some ((sClaim.unlockings.head!.2).filter fun c =>
           decide (sClaim.currentEra < c.era))) ∧
      balOf 10 s'.stakingBalances =
        balOf 10 sClaim.stakingBalances +
          sumChunks ((sClaim.unlockings.head!.2).filter fun c =>
            decide (¬ sClaim.currentEra < c.era)) ∧
      balOf palletAccount s'.stakingBalances =
        balOf palletAccount sClaim.stakingBalances -
          sumChunks ((sClaim.unlockings.head!.2).filter fun c =>
            decide (¬ sClaim.currentEra < c.era)) :=
  (c9_claim_for sClaim 10).2.2.2.1 (sClaim.unlockings.head!.2)
    (by decide) (by decide) (by decide) (by decide) (by decide)

/-! ## Chunk-sum lemmas -/

theorem sumChunks_append (l1 l2 : List UnlockChunk) :
    sumChunks (l1 ++ l2) = sumChunks l1 + sumChunks l2 := by
  induction l1 with
  | nil => simp [sumChunks]
  | cons c rest ih => simp [sumChunks, ih]; omega

theorem sumChunks_reverse (l : List UnlockChunk) :
    sumChunks l.reverse = sumChunks l := by
  induction l with
  | nil => rfl
  | cons c rest ih =>
    simp [sumChunks, List.reverse_cons, sumChunks_append, ih]
    omega

theorem sumChunks_mergeChunk (l : List UnlockChunk) (a e : Nat) :
    sumChunks (mergeChunk l a e) = sumChunks l + a := by
  induction l with
  | nil => simp [mergeChunk, sumChunks]
  | cons c rest ih =>
    cases rest with
    | nil =>
      by_cases hc : c.era = e
      · simp [mergeChunk, hc, sumChunks, satAdd]
      · simp [mergeChunk, hc, sumChunks]
    | cons c2 rest2 =>
      simp only [mergeChunk, sumChunks, ih]
      omega

theorem takeRev_sum (l : List UnlockChunk) (a : Nat) :
    sumChunks (takeRev l a).1 + (takeRev l a).2 = sumChunks l := by
  induction l generalizing a with
  | nil => simp [takeRev, sumChunks]
  | cons c rest ih =>
    unfold takeRev
    by_cases hz : a = 0
    · simp [hz]
    · rw [if_neg hz]
      by_cases hc : c.value ≤ a
      · rw [if_pos hc]
        simp only [sumChunks]
        have := ih (a - c.value)
        omega
      · rw [if_neg hc]
        simp only [sumChunks]
        omega

theorem sumChunks_filter_split (l : List UnlockChunk) (e : Nat) :
    sumChunks (l.filter fun c => decide (e < c.era)) +
      sumChunks (l.filter fun c => decide (¬ e < c.era)) = sumChunks l := by
  induction l with
  | nil => simp [sumChunks]
  | cons c rest ih =>
    by_cases hc : e < c.era
    · rw [List.filter_cons_of_pos (by simp [hc]), List.filter_cons_of_neg (by simp [hc])]
      simp only [sumChunks]
      omega
    · rw [List.filter_cons_of_neg (by simp [hc]), List.filter_cons_of_pos (by simp [hc])]
      simp only [sumChunks]
      omega

/-! ## Ledger well-formedness lemmas -/

theorem ledgerWf_new (acct amount : Nat) :
    LedgerWf (StakingLedger.new acct amount) := by
  simp [LedgerWf, StakingLedger.new, sumChunks]

theorem ledgerWf_bond_extra (l : StakingLedger) (a : Nat) (h : LedgerWf l) :
    LedgerWf (l.bond_extra a) := by
  unfold LedgerWf StakingLedger.bond_extra at *
  simp only
  omega

theorem ledgerWf_unbond (l : StakingLedger) (a e : Nat) (h : LedgerWf l) :
    LedgerWf (l.unbond a e) := by
  unfold LedgerWf StakingLedger.unbond at *
  by_cases hz : min a l.active = 0
  · simp [hz]
    exact h
  · simp only [hz, if_false]
    simp only [sumChunks_mergeChunk]
    have : min a l.active ≤ l.active := min_le_right _ _
    omega

theorem ledgerWf_rebond (l : StakingLedger) (a : Nat) (h : LedgerWf l) :
    LedgerWf (l.rebond a) := by
  unfold LedgerWf StakingLedger.rebond at *
  simp only [sumChunks_reverse]
  have h1 := takeRev_sum l.unlocking.reverse a
  rw [sumChunks_reverse] at h1
  omega

theorem ledgerWf_consolidate_unlocked (l : StakingLedger) (e : Nat)
    (h : LedgerWf l) : LedgerWf (l.consolidate_unlocked e) := by
  unfold LedgerWf StakingLedger.consolidate_unlocked at *
  simp only
  have h1 := sumChunks_filter_split l.unlocking e
  omega

/-! ## Ledger-map lemmas -/

theorem wf_insertA (m : List (Nat × StakingLedger)) (k : Nat) (l : StakingLedger)
    (hm : ∀ pr ∈ m, LedgerWf pr.2) (hl : LedgerWf l) :
    ∀ pr ∈ insertA k l m, LedgerWf pr.2 := by
  induction m with
  | nil =>
    intro pr hpr
    simp [insertA] at hpr
    rw [hpr]
    exact hl
  | cons p rest ih =>
    intro pr hpr
    by_cases hk : k = p.1
    · simp [insertA, hk] at hpr
      rcases hpr with h | h
      · rw [h]
        exact hl
      · exact hm pr (List.mem_cons_of_mem _ h)
    · simp only [insertA, if_neg hk, List.mem_cons] at hpr
      rcases hpr with h | h
      · rw [h]
        exact hm p (List.mem_cons_self _ _)
      · exact ih (fun q hq => hm q (List.mem_cons_of_mem _ hq)) pr h

theorem wf_lookupA (m : List (Nat × StakingLedger)) (k : Nat) (l : StakingLedger)
    (hm : ∀ pr ∈ m, LedgerWf pr.2) (h : lookupA k m = some l) : LedgerWf l := by
  induction m with
  | nil => simp [lookupA] at h
  | cons p rest ih =>
    unfold lookupA at h
    split at h
    · simp only [Option.some.injEq] at h
      rw [← h]
      exact hm p (List.mem_cons_self _ _)
    · exact ih (fun q hq => hm q (List.mem_cons_of_mem _ hq)) h

/-! ## Pool-invariant lemmas -/

theorem poolInv_add_stake (p q : MatchingLedger) (a : Nat)
    (h : p.add_stake_amount a = .ok q) (hp : PoolInv p) : PoolInv q := by
  have hs := add_stake_amount_shape p q a h
  exact ⟨hs.1.le.trans (hp.1.trans hs.2.2), hs.2.1 ▸ hp.2⟩

theorem poolInv_add_unstake (p q : MatchingLedger) (a : Nat)
    (h : p.add_unstake_amount a = .ok q) (hp : PoolInv p) : PoolInv q := by
  have hs := add_unstake_amount_shape p q a h
  exact ⟨hs.2.1 ▸ hp.1, hs.1.le.trans (hp.2.trans hs.2.2)⟩

theorem poolInv_set_stake_lock (p q : MatchingLedger) (a : Nat)
    (h : p.set_stake_amount_lock a = .ok q) (hp : PoolInv p) : PoolInv q := by
  unfold MatchingLedger.set_stake_amount_lock at h
  split at h
  · rename_i hle
    simp only [Except.ok.injEq] at h
    subst h
    exact ⟨hle, hp.2⟩
  · simp at h

theorem poolInv_set_unstake_lock (p q : MatchingLedger) (a : Nat)
    (h : p.set_unstake_amount_lock a = .ok q) (hp : PoolInv p) : PoolInv q := by
  unfold MatchingLedger.set_unstake_amount_lock at h
  split at h
  · rename_i hle
    simp only [Except.ok.injEq] at h
    subst h
    exact ⟨hp.1, hle⟩
  · simp at h

theorem poolInv_consolidate_stake (p q : MatchingLedger) (a : Nat)
    (h : p.consolidate_stake a = .ok q) (hp : PoolInv p) : PoolInv q := by
  unfold MatchingLedger.consolidate_stake at h
  split at h
  · rename_i hle
    simp only [Except.ok.injEq] at h
    subst h
    refine ⟨?_, hp.2⟩
    simp only [PoolInv] at hp
    dsimp only
    omega
  · simp at h

theorem poolInv_consolidate_unstake (p q : MatchingLedger) (a : Nat)
    (h : p.consolidate_unstake a = .ok q) (hp : PoolInv p) : PoolInv q := by
  unfold MatchingLedger.consolidate_unstake at h
  split at h
  · rename_i hle
    simp only [Except.ok.injEq] at h
    subst h
    refine ⟨hp.1, ?_⟩
    simp only [PoolInv] at hp
    dsimp only
    omega
  · simp at h

theorem poolInv_sub_stake (p q : MatchingLedger) (a : Nat)
    (h : p.sub_stake_amount a = .ok q) (hp : PoolInv p) : PoolInv q := by
  unfold MatchingLedger.sub_stake_amount at h
  split at h
  · rename_i hle
    simp only [Except.ok.injEq] at h
    subst h
    refine ⟨?_, hp.2⟩
    simp only [PoolInv] at hp
    dsimp only
    omega
  · simp at h

/-! ## Transition discipline: `Tame s s'` holds when the step keeps the
current era and preserves the accounting invariant. -/

def Tame (s s' : State) : Prop :=
  s'.currentEra = s.currentEra ∧ (Invariant s → Invariant s')

theorem tame_refl (s : State) : Tame s s := ⟨rfl, id⟩

theorem tame_trans {s1 s2 s3 : State} (h1 : Tame s1 s2) (h2 : Tame s2 s3) :
    Tame s1 s3 := ⟨h2.1.trans h1.1, fun h => h2.2 (h1.2 h)⟩

theorem doBondExtra_tame (cfg : Config) (s : State) (i a : Nat) (s' : State)
    (h : doBondExtra cfg s i a = .ok s') : Tame s s' := by
  unfold doBondExtra at h
  split at h
  · simp at h
    exact h ▸ tame_refl s
  · split at h
    · split at h
      · split at h
        · simp at h
        · split at h
          · simp at h
          · rename_i pool hpool
            simp only [Except.ok.injEq] at h
            subst h
            exact ⟨rfl, fun hs => ⟨poolInv_set_stake_lock _ _ _ hpool hs.1, hs.2⟩⟩
      · simp at h
    · simp at h

theorem doBond_tame (cfg : Config) (s : State) (i a : Nat)
    (payee : RewardDestination) (s' : State)
    (h : doBond cfg s i a payee = .ok s') : Tame s s' := by
  unfold doBond at h
  split at h
  · simp at h
    exact h ▸ tame_refl s
  · split at h
    · exact doBondExtra_tame cfg s i a s' h
    · split at h
      · split at h
        · split at h
          · simp at h
          · split at h
            · simp at h
            · rename_i pool hpool
              simp only [Except.ok.injEq] at h
              subst h
              exact ⟨rfl, fun hs => ⟨poolInv_set_stake_lock _ _ _ hpool hs.1, hs.2⟩⟩
        · simp at h
      · simp at h

theorem doUnbond_tame (cfg : Config) (s : State) (i a : Nat) (s' : State)
    (h : doUnbond cfg s i a = .ok s') : Tame s s' := by
  unfold doUnbond at h
  split at h
  · simp at h
    exact h ▸ tame_refl s
  · split at h
    · split at h
      · simp at h
      · split at h
        · split at h
          · split at h
            · simp at h
            · rename_i pool hpool
              simp only [Except.ok.injEq] at h
              subst h
              exact ⟨rfl, fun hs => ⟨poolInv_set_unstake_lock _ _ _ hpool hs.1, hs.2⟩⟩
          · simp at h
        · simp at h
    · simp at h

theorem doRebond_tame (cfg : Config) (s : State) (i a : Nat) (s' : State)
    (h : doRebond cfg s i a = .ok s') : Tame s s' := by
  unfold doRebond at h
  split at h
  · simp at h
    exact h ▸ tame_refl s
  · split at h
    · split at h
      · split at h
        · simp at h
        · rename_i pool hpool
          simp only [Except.ok.injEq] at h
          subst h
          exact ⟨rfl, fun hs => ⟨poolInv_set_stake_lock _ _ _ hpool hs.1, hs.2⟩⟩
      · simp at h
    · simp at h

theorem doWithdrawUnbonded_tame (cfg : Config) (s : State) (i n : Nat)
    (s' : State) (h : doWithdrawUnbonded cfg s i n = .ok s') : Tame s s' := by
  unfold doWithdrawUnbonded at h
  split at h
  · simp at h
    exact h ▸ tame_refl s
  · split at h
    · split at h
      · simp only [Except.ok.injEq] at h
        subst h
        exact ⟨rfl, fun hs => ⟨hs.1, hs.2⟩⟩
      · simp at h
    · simp at h

theorem doNominate_tame (cfg : Config) (s : State) (i : Nat)
    (targets : List Nat) (s' : State)
    (h : doNominate cfg s i targets = .ok s') : Tame s s' := by
  unfold doNominate at h
  split at h
  · split at h
    · simp only [Except.ok.injEq] at h
      subst h
      exact ⟨rfl, fun hs => ⟨hs.1, hs.2⟩⟩
    · simp at h
  · simp at h

theorem doBondList_tame (cfg : Config) (payee : RewardDestination)
    (l : List (Nat × Nat)) (s s' : State)
    (h : doBondList cfg payee l s = .ok s') : Tame s s' := by
  induction l generalizing s with
  | nil =>
    unfold doBondList at h
    simp at h
    exact h ▸ tame_refl s
  | cons p rest ih =>
    unfold doBondList at h
    split at h
    · simp at h
    · rename_i s1 hs1
      exact tame_trans (doBond_tame cfg s p.1 p.2 payee s1 hs1) (ih s1 h)

theorem doUnbondList_tame (cfg : Config) (l : List (Nat × Nat)) (s s' : State)
    (h : doUnbondList cfg l s = .ok s') : Tame s s' := by
  induction l generalizing s with
  | nil =>
    unfold doUnbondList at h
    simp at h
    exact h ▸ tame_refl s
  | cons p rest ih =>
    unfold doUnbondList at h
    split at h
    · simp at h
    · rename_i s1 hs1
      exact tame_trans (doUnbond_tame cfg s p.1 p.2 s1 hs1) (ih s1 h)

theorem doRebondList_tame (cfg : Config) (l : List (Nat × Nat)) (s s' : State)
    (h : doRebondList cfg l s = .ok s') : Tame s s' := by
  induction l generalizing s with
  | nil =>
    unfold doRebondList at h
    simp at h
    exact h ▸ tame_refl s
  | cons p rest ih =>
    unfold doRebondList at h
    split at h
    · simp at h
    · rename_i s1 hs1
      exact tame_trans (doRebond_tame cfg s p.1 p.2 s1 hs1) (ih s1 h)

theorem doWithdrawList_tame (cfg : Config) (n : Nat) (l : List Nat) (s s' : State)
    (h : doWithdrawList cfg n l s = .ok s') : Tame s s' := by
  induction l generalizing s with
  | nil =>
    unfold doWithdrawList at h
    simp at h
    exact h ▸ tame_refl s
  | cons i rest ih =>
    unfold doWithdrawList at h
    split at h
    · simp at h
    · rename_i s1 hs1
      exact tame_trans (doWithdrawUnbonded_tame cfg s i n s1 hs1) (ih s1 h)

theorem doMatching_tame (cfg : Config) (s s' : State)
    (h : doMatching cfg s = .ok s') : Tame s s' := by
  unfold doMatching at h
  split at h
  · simp at h
  · rename_i triple htriple
    obtain ⟨bondAmount, rebondAmount, unbondAmount⟩ := triple
    split at h
    · simp at h
    · rename_i s2 hs2
      split at h
      · simp at h
      · rename_i s3 hs3
        split at h
        · simp at h
        · rename_i s4 hs4
          have t1 : Tame s { s with isMatched := true } := ⟨rfl, fun hs => ⟨hs.1, hs.2⟩⟩
          have t2 : Tame { s with isMatched := true } s2 := by
            unfold doMultiBond at hs2
            split at hs2
            · simp at hs2
              exact hs2 ▸ tame_refl _
            · exact doBondList_tame cfg .staked _ _ s2 hs2
          have t3 : Tame s2 s3 := by
            unfold doMultiRebond at hs3
            split at hs3
            · simp at hs3
              exact hs3 ▸ tame_refl _
            · exact doRebondList_tame cfg _ s2 s3 hs3
          have t4 : Tame s3 s4 := by
            unfold doMultiUnbond at hs4
            split at hs4
            · simp at hs4
              exact hs4 ▸ tame_refl _
            · exact doUnbondList_tame cfg _ s3 s4 hs4
          have t5 : Tame s4 s' := by
            unfold doMultiWithdrawUnbonded at h
            exact doWithdrawList_tame cfg _ _ s4 s' h
          exact tame_trans t1 (tame_trans t2 (tame_trans t3 (tame_trans t4 t5)))

theorem applyXcmRequest_tame (cfg : Config) (s : State) (req : XcmRequest)
    (s' : State) (h : applyXcmRequest cfg s req = .ok s') : Tame s s' := by
  cases req with
  | bond index amount =>
    simp only [applyXcmRequest] at h
    split at h
    · simp at h
    · split at h
      · simp at h
      · rename_i pool hpool
        split at h
        · simp at h
        · rename_i pr hburn
          obtain ⟨m, iss⟩ := pr
          simp only [Except.ok.injEq] at h
          subst h
          refine ⟨rfl, fun hs => ⟨poolInv_consolidate_stake _ _ _ hpool hs.1, ?_⟩⟩
          exact wf_insertA _ _ _ hs.2 (ledgerWf_new _ _)
  | bondExtra index amount =>
    simp only [applyXcmRequest] at h
    split at h
    · simp at h
    · rename_i l hl
      split at h
      · simp at h
      · rename_i pool hpool
        split at h
        · simp at h
        · rename_i pr hburn
          obtain ⟨m, iss⟩ := pr
          simp only [Except.ok.injEq] at h
          subst h
          refine ⟨rfl, fun hs => ⟨poolInv_consolidate_stake _ _ _ hpool hs.1, ?_⟩⟩
          exact wf_insertA _ _ _ hs.2 (ledgerWf_bond_extra l amount (wf_lookupA _ _ _ hs.2 hl))
  | unbond index amount =>
    simp only [applyXcmRequest] at h
    split at h
    · simp at h
    · rename_i l hl
      split at h
      · simp at h
      · rename_i pool hpool
        simp only [Except.ok.injEq] at h
        subst h
        refine ⟨rfl, fun hs => ⟨poolInv_consolidate_unstake _ _ _ hpool hs.1, ?_⟩⟩
        exact wf_insertA _ _ _ hs.2 (ledgerWf_unbond l amount _ (wf_lookupA _ _ _ hs.2 hl))
  | rebond index amount =>
    simp only [applyXcmRequest] at h
    split at h
    · simp at h
    · rename_i l hl
      split at h
      · simp at h
      · rename_i pool hpool
        simp only [Except.ok.injEq] at h
        subst h
        refine ⟨rfl, fun hs => ⟨poolInv_consolidate_stake _ _ _ hpool hs.1, ?_⟩⟩
        exact wf_insertA _ _ _ hs.2 (ledgerWf_rebond l amount (wf_lookupA _ _ _ hs.2 hl))
  | withdrawUnbonded index n =>
    simp only [applyXcmRequest] at h
    split at h
    · simp at h
    · rename_i l hl
      simp only [Except.ok.injEq] at h
      subst h
      refine ⟨rfl, fun hs => ⟨hs.1, ?_⟩⟩
      exact wf_insertA _ _ _ hs.2 (ledgerWf_consolidate_unlocked l _ (wf_lookupA _ _ _ hs.2 hl))
  | nominate index targets =>
    simp only [applyXcmRequest] at h
    simp only [Except.ok.injEq] at h
    subst h
    exact tame_refl s

theorem doNotificationReceived_tame (cfg : Config) (s : State) (q : Nat)
    (req : XcmRequest) (res : Option Nat) (s' : State)
    (h : doNotificationReceived cfg s q req res = .ok s') : Tame s s' := by
  unfold doNotificationReceived at h
  split at h
  · simp at h
    exact h ▸ tame_refl s
  · split at h
    · simp at h
    · rename_i s1 hs1
      simp only [Except.ok.injEq] at h
      subst h
      have t := applyXcmRequest_tame cfg s req s1 hs1
      exact ⟨t.1, fun hs => ⟨(t.2 hs).1, (t.2 hs).2⟩⟩

theorem notificationReceivedCall_tame (cfg : Config) (s : State) (q : Nat)
    (res : Option Nat) (s' : State)
    (h : notificationReceivedCall cfg s q res = .ok s') : Tame s s' := by
  unfold notificationReceivedCall at h
  split at h
  · simp at h
    exact h ▸ tame_refl s
  · exact doNotificationReceived_tame cfg s q _ res s' h

theorem stakeCall_tame (cfg : Config) (s : State) (who a : Nat) (s' : State)
    (h : stakeCall cfg s who a = .ok s') : Tame s s' := by
  unfold stakeCall at h
  dsimp only at h
  split at h
  · split at h
    · simp at h
    · split at h
      · simp at h
      · split at h
        · simp at h
        · split at h
          · simp at h
          · split at h
            · simp at h
            · split at h
              · simp at h
              · rename_i pool hpool
                split at h
                · simp at h
                · simp only [Except.ok.injEq] at h
                  subst h
                  exact ⟨rfl, fun hs => ⟨poolInv_add_stake _ _ _ hpool hs.1, hs.2⟩⟩
  · simp at h

theorem doLoansInstantUnstake_tame (cfg : Config) (s : State) (who a : Nat)
    (s' : State) (h : doLoansInstantUnstake cfg s who a = .ok s') : Tame s s' := by
  unfold doLoansInstantUnstake at h
  split at h
  · simp at h
  · split at h
    · simp at h
    · split at h
      · simp at h
      · simp only [Except.ok.injEq] at h
        subst h
        exact ⟨rfl, fun hs => ⟨hs.1, hs.2⟩⟩

theorem unstakeCall_tame (cfg : Config) (s : State) (who la : Nat)
    (provider : UnstakeProvider) (s' : State)
    (h : unstakeCall cfg s who la provider = .ok s') : Tame s s' := by
  cases provider with
  | matchingPool =>
    unfold unstakeCall at h
    simp only [UnstakeProvider.is_matching_pool, UnstakeProvider.is_loans,
      Bool.false_eq_true, if_true, if_false] at h
    split at h
    · simp only [Except.ok.injEq] at h
      subst h
      exact ⟨rfl, fun hs => ⟨hs.1, hs.2⟩⟩
    · simp at h
  | relayChain =>
    unfold unstakeCall at h
    simp only [UnstakeProvider.is_matching_pool, UnstakeProvider.is_loans,
      Bool.false_eq_true, if_true, if_false] at h
    split at h
    · split at h
      · simp at h
      · split at h
        · split at h
          · simp at h
          · split at h
            · simp at h
            · rename_i pool hpool
              simp only [Except.ok.injEq] at h
              subst h
              exact ⟨rfl, fun hs => ⟨poolInv_add_unstake _ _ _ hpool hs.1, hs.2⟩⟩
        · simp at h
    · simp at h
  | loans =>
    unfold unstakeCall at h
    simp only [UnstakeProvider.is_matching_pool, UnstakeProvider.is_loans,
      Bool.false_eq_true, if_true, if_false] at h
    split at h
    · split at h
      · simp at h
      · split at h
        · split at h
          · simp at h
          · split at h
            · simp at h
            · rename_i s3 hs3
              split at h
              · simp at h
              · rename_i pool hpool
                simp only [Except.ok.injEq] at h
                subst h
                have t3 := doLoansInstantUnstake_tame cfg _ who _ s3 hs3
                refine ⟨t3.1, fun hs => ?_⟩
                have hinv3 := t3.2 ⟨hs.1, hs.2⟩
                exact ⟨poolInv_add_unstake _ _ _ hpool hinv3.1, hinv3.2⟩
        · simp at h
    · simp at h

theorem doClaimFor_tame (s : State) (who a : Nat) (s' : State)
    (h : doClaimFor s who a = .ok s') : Tame s s' := by
  unfold doClaimFor at h
  split at h
  · simp at h
    exact h ▸ tame_refl s
  · split at h
    · simp at h
    · simp only [Except.ok.injEq] at h
      subst h
      exact ⟨rfl, fun hs => ⟨hs.1, hs.2⟩⟩

theorem claimForCall_tame (s : State) (who : Nat) (s' : State)
    (h : claimForCall s who = .ok s') : Tame s s' := by
  unfold claimForCall at h
  dsimp only at h
  split at h
  · simp at h
  · split at h
    · simp at h
    · split at h
      · simp at h
      · split at h
        · simp at h
        · rename_i s1 hs1
          simp only [Except.ok.injEq] at h
          subst h
          have t := doClaimFor_tame s who _ s1 hs1
          exact ⟨t.1, fun hs => ⟨(t.2 hs).1, (t.2 hs).2⟩⟩

theorem doFastMatchUnstake_tame (cfg : Config) (s : State) (who : Nat)
    (s' : State) (h : doFastMatchUnstake cfg s who = .ok s') : Tame s s' := by
  unfold doFastMatchUnstake at h
  dsimp only at h
  split at h
  · simp at h
    exact h ▸ tame_refl s
  · split at h
    · simp at h
    · split at h
      · simp at h
      · split at h
        · simp at h
        · rename_i s1 hs1
          simp only [Except.ok.injEq] at h
          subst h
          have t1 : Tame s s1 := by
            split at hs1
            · simp only [Except.ok.injEq] at hs1
              subst hs1
              exact tame_refl s
            · split at hs1
              · simp at hs1
              · split at hs1
                · simp at hs1
                · split at hs1
                  · simp at hs1
                  · split at hs1
                    · simp at hs1
                    · rename_i pool hpool
                      split at hs1
                      · simp at hs1
                      · simp only [Except.ok.injEq] at hs1
                        subst hs1
                        exact ⟨rfl, fun hs => ⟨poolInv_sub_stake _ _ _ hpool hs.1, hs.2⟩⟩
          exact ⟨t1.1, fun hs => ⟨(t1.2 hs).1, (t1.2 hs).2⟩⟩

theorem fastMatchUnstakeList_tame (cfg : Config) (l : List Nat) (s s' : State)
    (h : fastMatchUnstakeList cfg l s = .ok s') : Tame s s' := by
  induction l generalizing s with
  | nil =>
    unfold fastMatchUnstakeList at h
    simp at h
    exact h ▸ tame_refl s
  | cons who rest ih =>
    unfold fastMatchUnstakeList at h
    split at h
    · simp at h
    · rename_i s1 hs1
      exact tame_trans (doFastMatchUnstake_tame cfg s who s1 hs1) (ih s1 h)

theorem doUpdateExchangeRate_tame (s s' : State)
    (h : doUpdateExchangeRate s = .ok s') : Tame s s' := by
  unfold doUpdateExchangeRate at h
  split at h
  · simp at h
    exact h ▸ tame_refl s
  · split at h
    · simp at h
    · split at h
      · simp at h
      · split at h
        · simp only [Except.ok.injEq] at h
          subst h
          exact ⟨rfl, fun hs => ⟨hs.1, hs.2⟩⟩
        · simp at h
          exact h ▸ tame_refl s

theorem doAdvanceEra_inv (cfg : Config) (s : State) (offset relayHeight : Nat)
    (s' : State) (h : doAdvanceEra cfg s offset relayHeight = .ok s')
    (hs : Invariant s) : Invariant s' := by
  unfold doAdvanceEra at h
  dsimp only at h
  split at h
  · simp at h
    exact h ▸ hs
  · split at h
    · rename_i s2 hs2
      simp only [Except.ok.injEq] at h
      subst h
      have t := doUpdateExchangeRate_tame _ s2 hs2
      have h2 := t.2 ⟨hs.1, hs.2⟩
      exact ⟨h2.1, h2.2⟩
    · simp only [Except.ok.injEq] at h
      subst h
      exact ⟨hs.1, hs.2⟩

theorem forceSetStakingLedgerCall_inv (s : State) (i : Nat)
    (ledger : StakingLedger) (s' : State)
    (h : forceSetStakingLedgerCall s i ledger = .ok s')
    (hs : Invariant s) (hl : LedgerWf ledger) : Invariant s' := by
  unfold forceSetStakingLedgerCall at h
  split at h
  · simp at h
  · split at h
    · simp only [Except.ok.injEq] at h
      subst h
      exact ⟨hs.1, wf_insertA _ _ _ hs.2 hl⟩
    · simp at h

theorem setStakingLedgerCall_inv (s : State) (i : Nat)
    (ledger : StakingLedger) (pv : Bool) (s' : State)
    (h : setStakingLedgerCall s i ledger pv = .ok s')
    (hs : Invariant s) (hl : LedgerWf ledger) : Invariant s' := by
  unfold setStakingLedgerCall at h
  dsimp only at h
  split at h
  · simp at h
  · split at h
    · split at h
      · split at h
        · simp at h
        · simp only [Except.ok.injEq] at h
          subst h
          exact ⟨hs.1, wf_insertA _ _ _ hs.2 hl⟩
      · simp at h
    · simp at h

theorem forceSetStakingLedgerCall_era (s : State) (i : Nat)
    (ledger : StakingLedger) (s' : State)
    (h : forceSetStakingLedgerCall s i ledger = .ok s') :
    s'.currentEra = s.currentEra := by
  unfold forceSetStakingLedgerCall at h
  split at h
  · simp at h
  · split at h
    · simp only [Except.ok.injEq] at h
      subst h
      rfl
    · simp at h

theorem setStakingLedgerCall_era (s : State) (i : Nat)
    (ledger : StakingLedger) (pv : Bool) (s' : State)
    (h : setStakingLedgerCall s i ledger pv = .ok s') :
    s'.currentEra = s.currentEra := by
  unfold setStakingLedgerCall at h
  dsimp only at h
  split at h
  · simp at h
  · split at h
    · split at h
      · split at h
        · simp at h
        · simp only [Except.ok.injEq] at h
          subst h
          rfl
      · simp at h
    · simp at h

theorem cancelUnstakeCall_tame (s : State) (who a : Nat) (s' : State)
    (h : cancelUnstakeCall s who a = .ok s') : Tame s s' := by
  unfold cancelUnstakeCall at h
  simp only [Except.ok.injEq] at h
  subst h
  exact ⟨rfl, fun hs => ⟨hs.1, hs.2⟩⟩

theorem reduceReservesCall_tame (s : State) (r a : Nat) (s' : State)
    (h : reduceReservesCall s r a = .ok s') : Tame s s' := by
  unfold reduceReservesCall at h
  split at h
  · simp at h
  · split at h
    · simp at h
    · simp only [Except.ok.injEq] at h
      subst h
      exact ⟨rfl, fun hs => ⟨hs.1, hs.2⟩⟩

theorem setCurrentEraCall_inv (cfg : Config) (s : State) (era : Nat)
    (pv : Bool) (relayHeight : Nat) (s' : State)
    (h : setCurrentEraCall cfg s era pv relayHeight = .ok s')
    (hs : Invariant s) : Invariant s' := by
  unfold setCurrentEraCall at h
  split at h
  · exact doAdvanceEra_inv cfg s _ relayHeight s' h hs
  · simp at h

theorem onInitializeHook_inv (cfg : Config) (s : State) (relayHeight : Nat)
    (s' : State) (h : onInitializeHook cfg s relayHeight = .ok s')
    (hs : Invariant s) : Invariant s' := by
  unfold onInitializeHook at h
  dsimp only at h
  split at h
  · simp at h
  · rename_i s1 hs1
    have inv1 : Invariant s1 := by
      split at hs1
      · exact (doMatching_tame cfg s s1 hs1).2 hs
      · simp at hs1
        exact hs1 ▸ hs
    split at h
    · simp at h
      exact h ▸ inv1
    · exact doAdvanceEra_inv cfg s1 _ relayHeight s' h inv1

/-! ## C3 and C5: step-level facts -/

theorem step_preserves_invariant (cfg : Config) (s : State) (op : Op)
    (s' : State) (hs : Invariant s) (hw : OpWf op)
    (h : step cfg s op = .ok s') : Invariant s' := by
  cases op with
  | stake who amount => exact (stakeCall_tame cfg s who amount s' h).2 hs
  | unstake who la provider => exact (unstakeCall_tame cfg s who la provider s' h).2 hs
  | updateReserveFactor rf =>
    simp only [step] at h
    split at h
    · simp only [Except.ok.injEq] at h
      subst h
      exact ⟨hs.1, hs.2⟩
    · simp at h
  | updateStakingLedgerCap cap =>
    simp only [step] at h
    split at h
    · simp only [Except.ok.injEq] at h
      subst h
      exact ⟨hs.1, hs.2⟩
    · simp at h
  | bond index amount payee => exact (doBond_tame cfg s index amount payee s' h).2 hs
  | bondExtra index amount => exact (doBondExtra_tame cfg s index amount s' h).2 hs
  | unbond index amount => exact (doUnbond_tame cfg s index amount s' h).2 hs
  | rebond index amount => exact (doRebond_tame cfg s index amount s' h).2 hs
  | withdrawUnbonded index n => exact (doWithdrawUnbonded_tame cfg s index n s' h).2 hs
  | nominate index targets => exact (doNominate_tame cfg s index targets s' h).2 hs
  | notificationReceived q res => exact (notificationReceivedCall_tame cfg s q res s' h).2 hs
  | claimFor who => exact (claimForCall_tame s who s' h).2 hs
  | forceSetEraStartBlock bn =>
    simp only [step, Except.ok.injEq] at h
    subst h
    exact ⟨hs.1, hs.2⟩
  | forceSetCurrentEra era =>
    simp only [step, Except.ok.injEq] at h
    subst h
    exact ⟨hs.1, hs.2⟩
  | forceAdvanceEra offset rh => exact doAdvanceEra_inv cfg s offset rh s' h hs
  | forceMatching => exact (doMatching_tame cfg s s' h).2 hs
  | forceSetStakingLedger index ledger =>
    exact forceSetStakingLedgerCall_inv s index ledger s' h hs hw
  | setCurrentEra era pv rh => exact setCurrentEraCall_inv cfg s era pv rh s' h hs
  | setStakingLedger index ledger pv =>
    exact setStakingLedgerCall_inv s index ledger pv s' h hs hw
  | reduceReserves r a => exact (reduceReservesCall_tame s r a s' h).2 hs
  | cancelUnstake who a => exact (cancelUnstakeCall_tame s who a s' h).2 hs
  | updateCommissionRate cr =>
    simp only [step] at h
    split at h
    · simp only [Except.ok.injEq] at h
      subst h
      exact ⟨hs.1, hs.2⟩
    · simp at h
  | fastMatchUnstake l => exact (fastMatchUnstakeList_tame cfg l s s' h).2 hs
  | updateIncentive a =>
    simp only [step, Except.ok.injEq] at h
    subst h
    exact ⟨hs.1, hs.2⟩
  | onInitialize rh => exact onInitializeHook_inv cfg s rh s' h hs

theorem exec_preserves_invariant (cfg : Config) (s : State) (op : Op)
    (hs : Invariant s) (hw : OpWf op) : Invariant (exec cfg s op) := by
  unfold exec
  split
  · rename_i s' h
    exact step_preserves_invariant cfg s op s' hs hw h
  · exact hs

/-- C3 (amended): the genesis state satisfies the accounting invariant, and
after any sequence of the engine's operations in which the staking ledgers
supplied verbatim to the force-set and proof-based set-staking-ledger entry
points themselves satisfy `total = active + sum(unlocking.value)`, every
matching-pool accumulator satisfies `locked <= total` and every stored
staking ledger satisfies `total = active + sum(unlocking.value)`.  (Without
that proviso the force-set entry point can install an arbitrary ill-formed
ledger; see the counterexample.) -/
theorem c3_invariants :
    (∀ (r f : Nat), Invariant (genesis r f)) ∧
    (∀ (cfg : Config) (ops : List Op) (s : State),
       Invariant s → (∀ op ∈ ops, OpWf op) → Invariant (run cfg s ops)) := by
  constructor
  · intro r f
    constructor
    · exact ⟨Nat.le_refl 0, Nat.le_refl 0⟩
    · intro pr hpr
      simp [genesis] at hpr
  · intro cfg ops
    induction ops with
    | nil => intro s hs _; exact hs
    | cons op rest ih =>
      intro s hs hw
      unfold run
      simp only [List.foldl_cons]
      have h1 : Invariant (exec cfg s op) :=
        exec_preserves_invariant cfg s op hs (hw op (List.mem_cons_self _ _))
      exact ih (exec cfg s op) h1 (fun o ho => hw o (List.mem_cons_of_mem _ ho))

/-- C3 witness: the invariant holds after the reachable stake → bond →
confirmation sequence. -/
theorem c3_invariants_witness : Invariant (run cfgT sT0 opsGood) :=
  c3_invariants.2 cfgT opsGood sT0 (by decide) (by decide)

/-- C3 counterexample: the claim as stated (covering the force-set entry
point with an arbitrary supplied ledger) is false — after stake, bond,
confirmation and a forced overwrite with `{total := 5, active := 1,
unlocking := []}`, the stored ledger violates
`total = active + sum(unlocking.value)`. -/
theorem c3_force_set_breaks_invariant :
    ¬ Invariant (run cfgT sT0 opsBadLedger) := by decide

/-- C5 (amended): era advance with offset 0 changes no state, and
`current_era` is mutated only by era advance (`do_advance_era`, reached from
`force_advance_era`, `set_current_era` and `on_initialize`) or by
`force_set_current_era`. -/
theorem c5_era_mutation :
    (∀ (cfg : Config) (s : State) (relayHeight : Nat),
       doAdvanceEra cfg s 0 relayHeight = .ok s) ∧
    (∀ (cfg : Config) (s s' : State) (op : Op),
       step cfg s op = .ok s' → s'.currentEra ≠ s.currentEra →
       IsEraAdvance op ∨ ∃ era, op = Op.forceSetCurrentEra era) := by
  constructor
  · intro cfg s relayHeight
    rfl
  · intro cfg s s' op h hne
    cases op with
    | forceAdvanceEra o rh => exact Or.inl trivial
    | setCurrentEra e pv rh => exact Or.inl trivial
    | onInitialize rh => exact Or.inl trivial
    | forceSetCurrentEra e => exact Or.inr ⟨e, rfl⟩
    | stake who amount => exact absurd (stakeCall_tame cfg s who amount s' h).1 hne
    | unstake who la provider =>
      exact absurd (unstakeCall_tame cfg s who la provider s' h).1 hne
    | updateReserveFactor rf =>
      simp only [step] at h
      split at h
      · simp only [Except.ok.injEq] at h
        subst h
        exact absurd rfl hne
      · simp at h
    | updateStakingLedgerCap cap =>
      simp only [step] at h
      split at h
      · simp only [Except.ok.injEq] at h
        subst h
        exact absurd rfl hne
      · simp at h
    | bond index amount payee =>
      exact absurd (doBond_tame cfg s index amount payee s' h).1 hne
    | bondExtra index amount =>
      exact absurd (doBondExtra_tame cfg s index amount s' h).1 hne
    | unbond index amount => exact absurd (doUnbond_tame cfg s index amount s' h).1 hne
    | rebond index amount => exact absurd (doRebond_tame cfg s index amount s' h).1 hne
    | withdrawUnbonded index n =>
      exact absurd (doWithdrawUnbonded_tame cfg s index n s' h).1 hne
    | nominate index targets =>
      exact absurd (doNominate_tame cfg s index targets s' h).1 hne
    | notificationReceived q res =>
      exact absurd (notificationReceivedCall_tame cfg s q res s' h).1 hne
    | claimFor who => exact absurd (claimForCall_tame s who s' h).1 hne
    | forceSetEraStartBlock bn =>
      simp only [step, Except.ok.injEq] at h
      subst h
      exact absurd rfl hne
    | forceMatching => exact absurd (doMatching_tame cfg s s' h).1 hne
    | forceSetStakingLedger index ledger =>
      exact absurd (forceSetStakingLedgerCall_era s index ledger s' h) hne
    | setStakingLedger index ledger pv =>
      exact absurd (setStakingLedgerCall_era s index ledger pv s' h) hne
    | reduceReserves r a => exact absurd (reduceReservesCall_tame s r a s' h).1 hne
    | cancelUnstake who a => exact absurd (cancelUnstakeCall_tame s who a s' h).1 hne
    | updateCommissionRate cr =>
      simp only [step] at h
      split at h
      · simp only [Except.ok.injEq] at h
        subst h
        exact absurd rfl hne
      · simp at h
    | fastMatchUnstake l => exact absurd (fastMatchUnstakeList_tame cfg l s s' h).1 hne
    | updateIncentive a =>
      simp only [step, Except.ok.injEq] at h
      subst h
      exact absurd rfl hne

/-- C5 witness: a forced era advance at genesis changes the era and is an
era advance. -/
theorem c5_era_mutation_witness :
    IsEraAdvance (Op.forceAdvanceEra 1 100) ∨
      ∃ era, Op.forceAdvanceEra 1 100 = Op.forceSetCurrentEra era :=
  c5_era_mutation.2 cfgT (genesis E18 0) sAdv (.forceAdvanceEra 1 100)
    (by rfl) (by decide)

/-- C5 counterexample: `force_set_current_era` succeeds, mutates
`current_era`, and is not an era advance, contradicting the claim that era
advance is the only operation mutating `current_era`. -/
theorem c5_force_set_current_era_mutates :
    step cfgT (genesis E18 0) (.forceSetCurrentEra 5) =
      .ok { genesis E18 0 with isMatched := false, currentEra := 5 } ∧
    ({ genesis E18 0 with isMatched := false, currentEra := 5 } : State).currentEra ≠
      (genesis E18 0).currentEra ∧
    ¬ IsEraAdvance (.forceSetCurrentEra 5) := by
  refine ⟨rfl, by decide, by decide⟩

end LiquidStaking
